import Mathlib

/-!
# Verification of the Video-Transcoder backend

Shallow embedding of the backend orchestration pipeline of the
Video-Transcoder repository (Express + in-memory storage + ffmpeg driver),
together with proofs about the claims of its specification.

Conventions of the embedding:
* machine numbers are `Nat`/`Int`; percentages computed with JS float
  division are modelled with exact rationals `Rat` (all values appearing
  here are exactly representable);
* timestamps (`Date.now()`, ISO strings) are modelled as `Nat`
  (milliseconds since the epoch);
* JS `Map<string, T>` is modelled as an insertion-ordered association list
  `List (String × T)` (`Map.get` = `List.lookup`, `Map.set` = `mapSet`,
  `Map.delete` = `mapDelete`);
* fallible / optional values are `Option`; code that can throw is `Except`.
-/

/-! ## Shared schema (src/shared/schema.ts) -/

/-- `VideoStatus` from shared/schema.ts. -/
inductive VideoStatus
  | uploading
  | uploadCompleted
  | queued
  | transcoding
  | completed
  | failed
deriving DecidableEq, Repr

/-- `Resolution` from shared/schema.ts: the three target resolutions. -/
inductive Resolution
  | r360p
  | r720p
  | r1080p
deriving DecidableEq, Repr

/-- The string name of a resolution (values of the `Resolution` const). -/
def Resolution.name : Resolution → String
  | .r360p => "360p"
  | .r720p => "720p"
  | .r1080p => "1080p"

/-- `TranscodingJob.status` values from shared/schema.ts. -/
inductive JobStatus
  | pending
  | processing
  | completed
  | failed
deriving DecidableEq, Repr

/-- The list of all resolutions, in the order the server iterates them
(`[Resolution.R360P, Resolution.R720P, Resolution.R1080P]`). -/
def allResolutions : List Resolution := [.r360p, .r720p, .r1080p]

/-- A sparse resolution-indexed record, as used by
`video.transcodingProgress` and `video.hlsUrls` (JS objects with
optional `"360p"/"720p"/"1080p"` keys). -/
structure ResMap (α : Type) where
  r360p : Option α := none
  r720p : Option α := none
  r1080p : Option α := none
deriving DecidableEq, Repr

/-- Read a key of a sparse resolution record. -/
def ResMap.get {α : Type} (m : ResMap α) : Resolution → Option α
  | .r360p => m.r360p
  | .r720p => m.r720p
  | .r1080p => m.r1080p

/-- Write a key of a sparse resolution record
(`currentProgress[resolution] = v`). -/
def ResMap.set {α : Type} (m : ResMap α) (r : Resolution) (v : α) : ResMap α :=
  match r with
  | .r360p => { m with r360p := some v }
  | .r720p => { m with r720p := some v }
  | .r1080p => { m with r1080p := some v }

/-- The empty sparse record (`{}` in JS, the `|| {}` default). -/
def ResMap.empty {α : Type} : ResMap α := {}

/-- `Video` record from shared/schema.ts (timestamps as epoch ms). -/
structure Video where
  id : String
  filename : String
  originalSize : Nat
  mimeType : String
  status : VideoStatus
  uploadProgress : Rat
  transcodingProgress : Option (ResMap Rat) := none
  hlsUrls : Option (ResMap String) := none
  errorMessage : Option String := none
  createdAt : Nat
  completedAt : Option Nat := none
deriving DecidableEq, Repr

/-- `UploadSession.status` values from shared/schema.ts. -/
inductive SessionStatus
  | active
  | completed
  | expired
deriving DecidableEq, Repr

/-- `UploadSession` record from shared/schema.ts. Chunk indices are
naturals (the routes validate `0 ≤ index < totalChunks` before any
storage write). -/
structure UploadSession where
  id : String
  videoId : String
  filename : String
  totalSize : Nat
  chunkSize : Nat
  totalChunks : Nat
  uploadedChunks : List Nat
  status : SessionStatus
  createdAt : Nat
  expiresAt : Nat
deriving DecidableEq, Repr

/-- `TranscodingJob` record from shared/schema.ts. -/
structure TranscodingJob where
  id : String
  videoId : String
  resolution : Resolution
  status : JobStatus
  progress : Rat
  inputPath : String
  outputPath : Option String := none
  errorMessage : Option String := none
  createdAt : Nat
  startedAt : Option Nat := none
  completedAt : Option Nat := none
deriving DecidableEq, Repr

/-! ## JS `Map` as an association list -/

/-- JS `Map.prototype.set`: replace in place when the key is present,
append otherwise (insertion order preserved; `Map` keys are unique, so
replacing the first occurrence is replacement in place). -/
def mapSet {α : Type} : List (String × α) → String → α → List (String × α)
  | [], k, v => [(k, v)]
  | p :: t, k, v => if p.1 = k then (k, v) :: t else p :: mapSet t k v

/-- JS `Map.prototype.delete`: remove the key, keeping the rest. -/
def mapDelete {α : Type} (l : List (String × α)) (k : String) :
    List (String × α) :=
  l.filter (fun p => p.1 ≠ k)

theorem lookup_cons {α : Type} (p : String × α) (t : List (String × α))
    (k : String) :
    List.lookup k (p :: t) = if k = p.1 then some p.2 else t.lookup k := by
  by_cases h : k = p.1
  · rw [if_pos h]
    have hb : (k == p.1) = true := beq_iff_eq.mpr h
    simp [List.lookup, hb]
  · rw [if_neg h]
    have hb : (k == p.1) = false := beq_eq_false_iff_ne.mpr h
    simp [List.lookup, hb]

theorem lookup_mapSet_self {α : Type} (l : List (String × α)) (k : String)
    (v : α) : (mapSet l k v).lookup k = some v := by
  induction l with
  | nil => simp [mapSet, lookup_cons]
  | cons p t ih =>
    by_cases hp : p.1 = k
    · simp [mapSet, hp, lookup_cons]
    · simp [mapSet, hp, lookup_cons, Ne.symm hp, ih]

theorem lookup_mapSet_ne {α : Type} (l : List (String × α)) (k k' : String)
    (v : α) (hne : k' ≠ k) : (mapSet l k v).lookup k' = l.lookup k' := by
  induction l with
  | nil =>
    have hb : (k' == k) = false := beq_eq_false_iff_ne.mpr hne
    simp [mapSet, List.lookup, hb]
  | cons p t ih =>
    by_cases hp : p.1 = k
    · rw [mapSet, if_pos hp, lookup_cons, lookup_cons, if_neg hne, hp,
        if_neg (hp ▸ hne)]
    · rw [mapSet, if_neg hp, lookup_cons, lookup_cons]
      by_cases hpk' : k' = p.1
      · rw [if_pos hpk', if_pos hpk']
      · rw [if_neg hpk', if_neg hpk', ih]

theorem lookup_mapDelete_none {α : Type} (l : List (String × α))
    (k : String) : (mapDelete l k).lookup k = none := by
  unfold mapDelete
  induction l with
  | nil => simp [List.lookup]
  | cons p t ih =>
    by_cases hp : p.1 = k
    · simpa [List.filter, hp] using ih
    · simpa [List.filter, hp, lookup_cons, Ne.symm hp] using ih

theorem mapDelete_of_lookup_none {α : Type} (l : List (String × α))
    (k : String) (h : l.lookup k = none) : mapDelete l k = l := by
  induction l with
  | nil => rfl
  | cons p t ih =>
    rw [lookup_cons] at h
    by_cases hp : k = p.1
    · simp [hp] at h
    · rw [if_neg hp] at h
      have hne : p.1 ≠ k := fun hc => hp (Eq.symm hc)
      simp only [mapDelete, List.filter, hne, decide_False, Bool.not_false]
      have := ih h
      rw [mapDelete] at this
      rw [this]
      simp [hne]

/-! ## In-memory state store (`MemStorage`, src/unnamed/part_006) -/

/-- `MemStorage`: the three in-memory maps. -/
structure MemStorage where
  videos : List (String × Video)
  uploadSessions : List (String × UploadSession)
  transcodingJobs : List (String × TranscodingJob)
deriving DecidableEq, Repr

/-- `MemStorage.markChunkUploaded` (src/unnamed/part_006, lines 115-133).

```
const session = this.uploadSessions.get(sessionId);
if (!session) return undefined;
if (!session.uploadedChunks.includes(chunkIndex)) {
  session.uploadedChunks.push(chunkIndex);
  session.uploadedChunks.sort((a, b) => a - b);
}
this.uploadSessions.set(sessionId, session);
const video = this.videos.get(session.videoId);
if (video) {
  const progress = (session.uploadedChunks.length / session.totalChunks) * 100;
  this.videos.set(session.videoId, { ...video, uploadProgress: progress });
}
return session;
```

JS `Array.prototype.sort` with the numeric comparator `(a, b) => a - b`
produces the ascending sorted permutation of the array; the sorted
permutation of a list of naturals is unique as a list, so
`List.insertionSort (· ≤ ·)` models it exactly. -/
def MemStorage.markChunkUploaded (st : MemStorage) (sessionId : String)
    (chunkIndex : Nat) : MemStorage × Option UploadSession :=
  match st.uploadSessions.lookup sessionId with
  | none => (st, none)
  | some session =>
    let session :=
      if chunkIndex ∈ session.uploadedChunks then session
      else { session with
              uploadedChunks :=
                List.insertionSort (· ≤ ·) (session.uploadedChunks ++ [chunkIndex]) }
    let st := { st with uploadSessions := mapSet st.uploadSessions sessionId session }
    let st :=
      match st.videos.lookup session.videoId with
      | some video =>
        let progress : Rat :=
          ((session.uploadedChunks.length : Rat) / (session.totalChunks : Rat)) * 100
        { st with videos := mapSet st.videos session.videoId
                    { video with uploadProgress := progress } }
      | none => st
    (st, some session)

/-- `MemStorage.createUploadSession` (src/unnamed/part_006, lines 74-100);
`now` stands for `new Date()`, `id` for the generated `randomUUID()`. -/
def MemStorage.createUploadSession (st : MemStorage) (id : String)
    (videoId : String) (filename : String) (totalSize : Nat)
    (chunkSize : Nat) (now : Nat) : MemStorage × UploadSession :=
  let totalChunks := (totalSize + chunkSize - 1) / chunkSize
  let session : UploadSession :=
    { id := id
      videoId := videoId
      filename := filename
      totalSize := totalSize
      chunkSize := chunkSize
      totalChunks := totalChunks
      uploadedChunks := []
      status := .active
      createdAt := now
      expiresAt := now + 24 * 60 * 60 * 1000 }
  ({ st with uploadSessions := mapSet st.uploadSessions id session }, session)

/-- `MemStorage.updateUploadSession` (src/unnamed/part_006, lines 106-113).
The update descriptor `{ ...session, ...updates }` is modelled as the
field transformer `f` (the callers only ever pass `{ status: ... }`). -/
def MemStorage.updateUploadSession (st : MemStorage) (id : String)
    (f : UploadSession → UploadSession) : MemStorage × Option UploadSession :=
  match st.uploadSessions.lookup id with
  | none => (st, none)
  | some session =>
    let updated := f session
    ({ st with uploadSessions := mapSet st.uploadSessions id updated }, some updated)

/-- `MemStorage.updateVideo` (src/unnamed/part_006, lines 61-68), with the
update descriptor modelled as a field transformer. -/
def MemStorage.updateVideo (st : MemStorage) (id : String)
    (f : Video → Video) : MemStorage × Option Video :=
  match st.videos.lookup id with
  | none => (st, none)
  | some video =>
    let updated := f video
    ({ st with videos := mapSet st.videos id updated }, some updated)

/-- `MemStorage.deleteVideo` (src/unnamed/part_006, lines 70-72):
`Map.delete` returns whether the key was present. -/
def MemStorage.deleteVideo (st : MemStorage) (id : String) :
    MemStorage × Bool :=
  ({ st with videos := mapDelete st.videos id },
   (st.videos.lookup id).isSome)

/-- `MemStorage.updateTranscodingJob` (src/unnamed/part_006, lines 163-170). -/
def MemStorage.updateTranscodingJob (st : MemStorage) (id : String)
    (f : TranscodingJob → TranscodingJob) : MemStorage × Option TranscodingJob :=
  match st.transcodingJobs.lookup id with
  | none => (st, none)
  | some job =>
    let updated := f job
    ({ st with transcodingJobs := mapSet st.transcodingJobs id updated }, some updated)

/-- `MemStorage.createTranscodingJob` (src/unnamed/part_006, lines 135-153). -/
def MemStorage.createTranscodingJob (st : MemStorage) (id : String)
    (videoId : String) (resolution : Resolution) (inputPath : String)
    (now : Nat) : MemStorage × TranscodingJob :=
  let job : TranscodingJob :=
    { id := id
      videoId := videoId
      resolution := resolution
      status := .pending
      progress := 0
      inputPath := inputPath
      createdAt := now }
  ({ st with transcodingJobs := mapSet st.transcodingJobs id job }, job)

/-- Modelled from the spec: `storage.getActiveUploadSessions` is called by
the route layer (src/server/routes.ts lines 355-367) but its
implementation is not among the provided sources; per §3/§4.1 of the
spec the Active set is the set of sessions whose status is Active, so
the method is modelled as the status filter. -/
def MemStorage.getActiveUploadSessions (st : MemStorage) : List UploadSession :=
  (st.uploadSessions.map Prod.snd).filter (fun s => s.status = .active)

/-! ## Route layer (src/server/routes.ts, enhanced version at lines 319-857) -/

/-- JS `parseInt(s)` restricted to base-10 inputs: skip leading
whitespace, optional sign, then the longest prefix of decimal digits;
`NaN` (here `none`) when no digit follows. -/
def parseLeadingDigits (cs : List Char) : Option Nat :=
  let ds := cs.takeWhile Char.isDigit
  if ds.isEmpty then none
  else some (ds.foldl (fun a c => a * 10 + (c.toNat - 48)) 0)

/-- JS `parseInt` (decimal). -/
def parseIntJS (s : String) : Option Int :=
  match s.data.dropWhile Char.isWhitespace with
  | '-' :: rest => (parseLeadingDigits rest).map (fun n => -(n : Int))
  | '+' :: rest => (parseLeadingDigits rest).map (fun n => (n : Int))
  | cs => (parseLeadingDigits cs).map (fun n => (n : Int))

/-- The multipart request reaching the chunk route after multer:
`req.body.sessionId`, `req.body.chunkIndex` (form fields, absent =
`undefined`) and `req.file` (absent, or present with its byte size). -/
structure ChunkRequest where
  sessionId : Option String
  chunkIndex : Option String
  file : Option Nat
deriving DecidableEq, Repr

/-- Server-side state seen by the upload routes: the storage maps plus
the promoted chunk files on disk, keyed by `(sessionId, chunkIndex)`
(path `chunks/<sessionId>/chunk_<index>`). -/
structure ServerState where
  storage : MemStorage
  chunkFiles : List (String × Nat)
deriving DecidableEq, Repr

/-- Add a promoted chunk file (the `fs.rename` target; renaming onto an
existing path overwrites it, so the key set gains at most one element). -/
def promoteChunk (files : List (String × Nat)) (key : String × Nat) :
    List (String × Nat) :=
  if key ∈ files then files else files ++ [key]

/-- Responses of `POST /api/upload/chunk`
(src/server/routes.ts lines 508-580). -/
inductive ChunkResponse
  /-- 400 `Missing sessionId or chunkIndex` -/
  | missingFields
  /-- 400 `No chunk data received` -/
  | noChunkData
  /-- 400 `Empty chunk received` -/
  | emptyChunk
  /-- 404 `Session not found` -/
  | sessionNotFound
  /-- 400 `Invalid chunk index` -/
  | invalidIndex
  /-- 200 `{success: true, uploadedChunks, totalChunks, progress}` -/
  | success (uploadedChunks totalChunks : Nat) (progress : Rat)
deriving DecidableEq, Repr

/-- HTTP status code of a chunk-route response. -/
def ChunkResponse.status : ChunkResponse → Nat
  | .missingFields => 400
  | .noChunkData => 400
  | .emptyChunk => 400
  | .sessionNotFound => 404
  | .invalidIndex => 400
  | .success _ _ _ => 200

/-- `POST /api/upload/chunk` handler (src/server/routes.ts lines
508-580), after the storage-space preflight has passed.  Checks in
source order: falsy `sessionId` / undefined `chunkIndex` → 400;
`req.file` absent → 400; zero-size chunk → 400; unknown session → 404;
index not an integer in `[0, totalChunks)` → 400; then the temp file is
renamed to `chunk_<index>` and `markChunkUploaded` runs. -/
def chunkHandler (req : ChunkRequest) (st : ServerState) :
    ChunkResponse × ServerState :=
  match req.sessionId, req.chunkIndex with
  | none, _ => (.missingFields, st)
  | some _, none => (.missingFields, st)
  | some sid, some idxStr =>
    if sid = "" then (.missingFields, st)
    else
      match req.file with
      | none => (.noChunkData, st)
      | some size =>
        if size = 0 then (.emptyChunk, st)
        else
          match st.storage.uploadSessions.lookup sid with
          | none => (.sessionNotFound, st)
          | some existingSession =>
            match parseIntJS idxStr with
            | none => (.invalidIndex, st)
            | some i =>
              if i < 0 ∨ (existingSession.totalChunks : Int) ≤ i then
                (.invalidIndex, st)
              else
                let chunkIdx := i.toNat
                let st := { st with
                  chunkFiles := promoteChunk st.chunkFiles (sid, chunkIdx) }
                match st.storage.markChunkUploaded sid chunkIdx with
                | (storage', none) => (.sessionNotFound, { st with storage := storage' })
                | (storage', some session) =>
                  (.success session.uploadedChunks.length session.totalChunks
                    (((session.uploadedChunks.length : Rat) / (session.totalChunks : Rat)) * 100),
                   { st with storage := storage' })

/-- Responses of `POST /api/upload/complete`
(src/server/routes.ts lines 582-715). -/
inductive CompleteResponse
  /-- 404 `Session not found` -/
  | sessionNotFound
  /-- 400 `Upload incomplete` with body `{uploaded, total}` — carries the
  received and expected chunk counts, not any index list. -/
  | uploadIncomplete (uploaded total : Nat)
  /-- 400 `Missing chunk files` with body
  `{missingChunks: first 10 missing indices, totalMissing}`. -/
  | missingChunkFiles (missingChunks : List Nat) (totalMissing : Nat)
  /-- 200 `{success: true, videoId}` -/
  | success (videoId : String)
deriving DecidableEq, Repr

/-- HTTP status code of a complete-route response. -/
def CompleteResponse.status : CompleteResponse → Nat
  | .sessionNotFound => 404
  | .uploadIncomplete _ _ => 400
  | .missingChunkFiles _ _ => 400
  | .success _ => 200

/-- `POST /api/upload/complete` handler (src/server/routes.ts lines
582-715).  `jobId r` stands for the `randomUUID()` of the job created
for resolution `r`, `now` for the timestamps taken during the request.
Reassembly I/O is not modelled beyond its effect on the chunk-file set;
the storage mutations follow the source order: session → `completed`,
video → `UPLOAD_COMPLETED` with progress 100, three jobs created, video
→ `QUEUED` with zeroed per-resolution progress. -/
def completeHandler (sessionId : String) (jobId : Resolution → String)
    (now : Nat) (st : ServerState) : CompleteResponse × ServerState :=
  match st.storage.uploadSessions.lookup sessionId with
  | none => (.sessionNotFound, st)
  | some session =>
    if session.uploadedChunks.length ≠ session.totalChunks then
      (.uploadIncomplete session.uploadedChunks.length session.totalChunks, st)
    else
      let missingChunks :=
        (List.range session.totalChunks).filter
          (fun i => (sessionId, i) ∉ st.chunkFiles)
      if 0 < missingChunks.length then
        (.missingChunkFiles (missingChunks.take 10) missingChunks.length, st)
      else
        -- chunks are streamed into uploads/<videoId><ext>, then the
        -- session chunk directory is removed
        let st := { st with
          chunkFiles := st.chunkFiles.filter (fun p => p.1 ≠ sessionId) }
        let storage := (st.storage.updateUploadSession sessionId
          (fun s => { s with status := .completed })).1
        let storage := (storage.updateVideo session.videoId
          (fun v => { v with status := .uploadCompleted, uploadProgress := 100 })).1
        let storage := (allResolutions.foldl
          (fun acc r => (acc.createTranscodingJob (jobId r) session.videoId r
            ("uploads/" ++ session.videoId) now).1) storage)
        let storage := (storage.updateVideo session.videoId
          (fun v => { v with
            status := .queued
            transcodingProgress :=
              some { r360p := some 0, r720p := some 0, r1080p := some 0 } })).1
        (.success session.videoId, { st with storage := storage })

/-! ## Storage cleanup (src/server/storage-cleanup.ts) -/

/-- `ORPHAN_SESSION_MAX_AGE_MS = 30 * 60 * 1000`. -/
def ORPHAN_SESSION_MAX_AGE_MS : Int := 30 * 60 * 1000

/-- JS `String.prototype.startsWith`, character-wise. -/
def startsWithJS (s pre : String) : Bool := pre.data.isPrefixOf s.data

/-- A directory entry of the `chunks/` directory as seen by
`fs.readdir(..., { withFileTypes: true })`; `mtime = none` models a
`statSync` failure for the entry. -/
structure DirEntry where
  name : String
  isDir : Bool
  mtime : Option Int
deriving DecidableEq, Repr

/-- Decision taken for a single session directory inside
`cleanupOrphanedSessions` (the `shouldClean` flag, src/server/
storage-cleanup.ts lines 60-77): a directory known to the expiry map is
cleaned iff its expiry has passed; otherwise a directory not in the
active id set is cleaned iff its mtime is older than 30 minutes or
`statSync` throws. -/
def shouldCleanSessionDir (activeSessionIds : List String)
    (sessionExpiryMap : Option (List (String × Int))) (now : Int)
    (e : DirEntry) : Bool :=
  match sessionExpiryMap with
  | some m =>
    match m.lookup e.name with
    | some expiresAt => now > expiresAt
    | none =>
      if e.name ∉ activeSessionIds then
        match e.mtime with
        | some mt => now - mt > ORPHAN_SESSION_MAX_AGE_MS
        | none => true
      else false
  | none =>
    if e.name ∉ activeSessionIds then
      match e.mtime with
      | some mt => now - mt > ORPHAN_SESSION_MAX_AGE_MS
      | none => true
    else false

/-- `cleanupOrphanedSessions` (src/server/storage-cleanup.ts lines
44-89): returns the names of the session chunk directories it deletes
(entries that are directories, are not `temp_*` files, and whose
`shouldClean` flag is set). -/
def cleanupOrphanedSessions (entries : List DirEntry)
    (activeSessionIds : List String)
    (sessionExpiryMap : Option (List (String × Int))) (now : Int) :
    List String :=
  ((entries.filter (fun e =>
      e.isDir && !(startsWithJS e.name "temp_")
        && shouldCleanSessionDir activeSessionIds sessionExpiryMap now e)).map
    DirEntry.name)

/-- `getActiveSessionIds` (src/server/routes.ts lines 355-358). -/
def getActiveSessionIds (st : MemStorage) : List String :=
  st.getActiveUploadSessions.map UploadSession.id

/-- `getSessionExpiryMap` (src/server/routes.ts lines 360-367). -/
def getSessionExpiryMap (st : MemStorage) : List (String × Int) :=
  st.getActiveUploadSessions.map (fun s => (s.id, (s.expiresAt : Int)))

/-- One periodic GC pass over the chunk directories as wired by the
5-minute interval (src/server/routes.ts lines 380-388): the active id
set and the expiry map are both derived from the Active sessions of the
store, then `runFullCleanup` → `cleanupOrphanedSessions` runs. -/
def periodicSessionCleanup (st : MemStorage) (entries : List DirEntry)
    (now : Int) : List String :=
  cleanupOrphanedSessions entries (getActiveSessionIds st)
    (some (getSessionExpiryMap st)) now

/-- The upload-file extensions probed by `cleanupUploadFile`
(src/server/storage-cleanup.ts line 105). -/
def uploadExtensions : List String := [".mp4", ".webm", ".mov", ".avi", ".mkv"]

/-- On-disk artifacts of a video outside the chunks tree:
`transcoded/<videoId>/...` trees and `uploads/<videoId><ext>` files. -/
structure VideoDisk where
  transcodedDirs : List String
  uploadFiles : List (String × String)
deriving DecidableEq, Repr

/-- `cleanupTranscodedFiles` (src/server/storage-cleanup.ts lines
119-130): remove `transcoded/<videoId>` recursively if it exists. -/
def cleanupTranscodedFiles (disk : VideoDisk) (videoId : String) :
    VideoDisk × Bool :=
  if videoId ∈ disk.transcodedDirs then
    ({ disk with transcodedDirs := disk.transcodedDirs.filter (· ≠ videoId) },
     true)
  else (disk, false)

/-- `cleanupUploadFile` (src/server/storage-cleanup.ts lines 103-117):
probe `uploads/<videoId><ext>` for each extension in order and unlink
the first one that exists. -/
def cleanupUploadFile (disk : VideoDisk) (videoId : String) :
    VideoDisk × Bool :=
  match uploadExtensions.find? (fun e => (videoId, e) ∈ disk.uploadFiles) with
  | some e =>
    ({ disk with uploadFiles := disk.uploadFiles.filter (· ≠ (videoId, e)) },
     true)
  | none => (disk, false)

/-- Responses of `DELETE /api/videos/:id`. -/
inductive DeleteResponse
  /-- 404 `Video not found` -/
  | notFound
  /-- 200 `{success: true}` -/
  | ok
deriving DecidableEq, Repr

/-- `DELETE /api/videos/:id` handler (src/server/routes.ts lines
740-757): `cleanupTranscodedFiles` and `cleanupUploadFile` run before
`storage.deleteVideo`, so the disk deletions happen even when the video
id is unknown and the response is a 404. -/
def deleteVideoHandler (videoId : String) (st : MemStorage)
    (disk : VideoDisk) : DeleteResponse × MemStorage × VideoDisk :=
  let disk := (cleanupTranscodedFiles disk videoId).1
  let disk := (cleanupUploadFile disk videoId).1
  let (st, deleted) := st.deleteVideo videoId
  if deleted then (.ok, st, disk) else (.notFound, st, disk)

/-! ## Encoder driver (`transcodeVideoFile`, src/unnamed/part_008 lines
182-259; `transcodeVideo` in src/unnamed/part_007 lines 18-94 is the
same logic) -/

/-- Observable behaviour of the spawned ffmpeg process, one constructor
per listener firing: a stderr chunk whose first `Duration:
HH:MM:SS.cc` match has the given components, a stdout chunk whose first
`out_time_ms=<n>` match carries `n` microseconds, process close with an
exit code (`none` models JS `null` after a signal), or a spawn error. -/
inductive FfmpegEvent
  | durationLine (hours minutes seconds centis : Nat)
  | outTimeLine (micros : Nat)
  | close (code : Option Int)
  | spawnError (msg : String)
deriving DecidableEq, Repr

/-- Settlement of the promise returned by `transcodeVideoFile`. -/
inductive FfmpegOutcome
  /-- `resolve(playlistPath)` on exit code 0. -/
  | resolved (playlistPath : String)
  /-- `reject(new Error("FFmpeg exited with code " + code))`. -/
  | rejectedExit (code : Option Int)
  /-- `reject(error)` from the `error` (spawn failure) listener. -/
  | rejectedSpawn (msg : String)
deriving DecidableEq, Repr

/-- The playlist path `path.join(outputDir, resolution, "playlist.m3u8")`. -/
def playlistPathOf (outputDir : String) (res : Resolution) : String :=
  outputDir ++ "/" ++ res.name ++ "/playlist.m3u8"

/-- The driver loop of `transcodeVideoFile` (src/unnamed/part_008 lines
221-258) as an interpreter over the event stream: returns the sequence
of `onProgress` reports and the promise settlement (`none` if the
stream ends before close/error).

* a `Duration` banner sets `duration = h*3600 + m*60 + s`
  (centiseconds are matched but ignored by the destructuring);
* an `out_time_ms=<n>` line with `duration > 0` reports
  `min((n / 1e6) / duration * 100, 99)`;
* close with code 0 reports a final `onProgress(100)` and resolves with
  the playlist path; any other close code rejects with that code;
* a spawn error rejects with the error. -/
def transcodeVideoFile (playlistPath : String) :
    Nat → List FfmpegEvent → List Rat × Option FfmpegOutcome
  | _, [] => ([], none)
  | _, .durationLine h m s _ :: rest =>
    transcodeVideoFile playlistPath (h * 3600 + m * 60 + s) rest
  | duration, .outTimeLine micros :: rest =>
    if 0 < duration then
      let currentTime : Rat := (micros : Rat) / 1000000
      let progress : Rat := min (currentTime / (duration : Rat) * 100) 99
      let tail := transcodeVideoFile playlistPath duration rest
      (progress :: tail.1, tail.2)
    else transcodeVideoFile playlistPath duration rest
  | _, .close code :: _ =>
    if code = some 0 then ([100], some (.resolved playlistPath))
    else ([], some (.rejectedExit code))
  | _, .spawnError msg :: _ => ([], some (.rejectedSpawn msg))

/-! ## Event bus (`emitEvent`, src/unnamed/part_008 lines 391-409) -/

/-- The event record built by `emitEvent`. -/
structure VideoEvent where
  type : String
  videoId : String
  data : Option (List (String × String))
  timestamp : Nat
deriving DecidableEq, Repr

/-- A Redis connection as `emitEvent` sees it: the outcome its next
`publish` call will settle with, and the log of successfully published
`(channel, event)` pairs. -/
structure BrokerConn where
  publishOutcome : Except String Unit
  published : List (String × VideoEvent)
deriving Repr

/-- The event-bus state: events synchronously dispatched to in-process
subscribers (`eventEmitter.emit("video-event", event)`), plus the
optional broker connection (`getRedisConnection()` returns `null` when
Redis is unavailable or disabled). -/
structure EventBus where
  localDelivered : List VideoEvent
  broker : Option BrokerConn
deriving Repr

/-- `emitEvent` (src/unnamed/part_008 lines 391-409).  The local
`eventEmitter.emit` happens first and unconditionally; when a broker
connection exists, `redis.publish("video-events", ...)` is attempted
and a rejection is swallowed by `.catch(() => {})`.  The `Except`
result captures whether the call itself can throw: it never does. -/
def emitEvent (type : String) (videoId : String)
    (data : Option (List (String × String))) (timestamp : Nat)
    (bus : EventBus) : Except String EventBus :=
  let event : VideoEvent :=
    { type := type, videoId := videoId, data := data, timestamp := timestamp }
  let bus := { bus with localDelivered := bus.localDelivered ++ [event] }
  match bus.broker with
  | none => .ok bus
  | some conn =>
    match conn.publishOutcome with
    | .ok _ =>
      let conn :=
        { conn with published := conn.published ++ [("video-events", event)] }
      .ok { bus with broker := some conn }
    | .error _ => .ok bus

/-! ## In-process transcoding (`simulateTranscoding`, src/unnamed/part_008
lines 261-389)

Each `simulateTranscoding(jobData)` invocation touches exactly one video
(`videoId`) and one job (`jobId`); `Promise.all` runs the three
resolutions of a video concurrently (src/unnamed/part_008 line 146).
The four storage-updating sections of the function are modelled as the
handler functions below, and a concurrent execution of the three
invocations as an interleaving of handler applications, formalised by
the step relation `SimStep`. -/

/-- The playback URL `/api/stream/<videoId>/<resolution>/playlist.m3u8`
written on completion (src/unnamed/part_008 line 330). -/
def streamUrl (videoId : String) (res : Resolution) : String :=
  "/api/stream/" ++ videoId ++ "/" ++ res.name ++ "/playlist.m3u8"

/-- Start section of `simulateTranscoding` (lines 264-266): video status
→ `transcoding`, job → `processing` with `startedAt`. -/
def simStartHandler (st : MemStorage) (videoId jobId : String)
    (now : Nat) : MemStorage :=
  let st := (st.updateVideo videoId
    (fun v => { v with status := .transcoding })).1
  (st.updateTranscodingJob jobId (fun j =>
    { j with status := .processing, startedAt := some now })).1

/-- Progress-callback section of `simulateTranscoding` (lines 307-326):
`video.transcodingProgress[resolution] = progress` (when the video
still exists) and `job.progress = progress`. -/
def simProgressHandler (st : MemStorage) (videoId jobId : String)
    (res : Resolution) (p : Rat) : MemStorage :=
  let st :=
    match st.videos.lookup videoId with
    | some video =>
      let currentProgress := (video.transcodingProgress.getD ResMap.empty).set res p
      (st.updateVideo videoId
        (fun v => { v with transcodingProgress := some currentProgress })).1
    | none => st
  (st.updateTranscodingJob jobId (fun j => { j with progress := p })).1

/-- Completion section of `simulateTranscoding` (lines 330-359): job →
`completed` with progress 100 and output path; then, when the video
still exists, write `hlsUrls[resolution]`, set
`transcodingProgress[resolution] = 100`, and set the video status to
`completed` iff every resolution's progress is 100 (else keep
`transcoding`), stamping / clearing `completedAt` accordingly. -/
def simCompleteHandler (st : MemStorage) (videoId jobId : String)
    (res : Resolution) (now : Nat) : MemStorage :=
  let hlsUrl := streamUrl videoId res
  let st := (st.updateTranscodingJob jobId (fun j =>
    { j with
      status := .completed
      progress := 100
      outputPath := some hlsUrl
      completedAt := some now })).1
  match st.videos.lookup videoId with
  | none => st
  | some video =>
    let currentHlsUrls := (video.hlsUrls.getD ResMap.empty).set res hlsUrl
    let currentProgress := (video.transcodingProgress.getD ResMap.empty).set res 100
    let allCompleted :=
      allResolutions.all (fun r => currentProgress.get r == some (100 : Rat))
    (st.updateVideo videoId (fun v =>
      { v with
        hlsUrls := some currentHlsUrls
        transcodingProgress := some currentProgress
        status := if allCompleted then .completed else .transcoding
        completedAt := if allCompleted then some now else none })).1

/-- Failure section of `simulateTranscoding` (catch block lines 372-381;
the FFmpeg-unavailable branch lines 281-289 performs the same two
updates with its own message): job → `failed` with `completedAt`,
video → `failed` with `errorMessage`. -/
def simFailHandler (st : MemStorage) (videoId jobId : String)
    (errMsg : String) (now : Nat) : MemStorage :=
  let st := (st.updateTranscodingJob jobId (fun j =>
    { j with status := .failed, completedAt := some now })).1
  (st.updateVideo videoId (fun v =>
    { v with status := .failed, errorMessage := some errMsg })).1

/-- Progress of one resolution's `simulateTranscoding` invocation:
not yet started, between start and settlement, after the
`onProgress(100)` fired on a successful close, or after the terminal
(completion/failure) section ran. -/
inductive SimPhase
  | idle
  | running
  | got100
  | finished
deriving DecidableEq, Repr

/-- A configuration of the three concurrent invocations: the store plus
each resolution's phase. -/
structure SimConfig where
  st : MemStorage
  ph : Resolution → SimPhase

/-- The identifiers the three invocations address: the video and the
per-resolution job ids handed over by `addTranscodingJobs`. -/
structure SimCtx where
  videoId : String
  jobId : Resolution → String

/-- Interleaving semantics of the three concurrent `simulateTranscoding`
invocations for one video.  `o r = true` means resolution `r`'s encoder
run succeeds (exit code 0), `o r = false` that it fails (or FFmpeg is
unavailable).  Per invocation the handler order is fixed by the source:
start, then progress reports (capped at `min(·, 99)` by
`transcodeVideoFile`), then on success the `onProgress(100)` report
followed by the completion section, or on failure the failure section.
Handlers of different resolutions interleave arbitrarily. -/
inductive SimStep (ctx : SimCtx) (o : Resolution → Bool) :
    SimConfig → SimConfig → Prop
  | start (c : SimConfig) (r : Resolution) (now : Nat) :
      c.ph r = .idle →
      SimStep ctx o c
        ⟨simStartHandler c.st ctx.videoId (ctx.jobId r) now,
          Function.update c.ph r .running⟩
  | progress (c : SimConfig) (r : Resolution) (p : Rat) :
      c.ph r = .running → p ≤ 99 →
      SimStep ctx o c
        ⟨simProgressHandler c.st ctx.videoId (ctx.jobId r) r p, c.ph⟩
  | progress100 (c : SimConfig) (r : Resolution) :
      o r = true → c.ph r = .running →
      SimStep ctx o c
        ⟨simProgressHandler c.st ctx.videoId (ctx.jobId r) r 100,
          Function.update c.ph r .got100⟩
  | complete (c : SimConfig) (r : Resolution) (now : Nat) :
      o r = true → c.ph r = .got100 →
      SimStep ctx o c
        ⟨simCompleteHandler c.st ctx.videoId (ctx.jobId r) r now,
          Function.update c.ph r .finished⟩
  | fail (c : SimConfig) (r : Resolution) (msg : String) (now : Nat) :
      o r = false → c.ph r = .running →
      SimStep ctx o c
        ⟨simFailHandler c.st ctx.videoId (ctx.jobId r) msg now,
          Function.update c.ph r .finished⟩

/-- The initial configuration produced by the complete route: all three
invocations not yet started; the video present, `queued`, with
`transcodingProgress = {low: 0, medium: 0, high: 0}` and no `hlsUrls`;
the three jobs present and `pending`. -/
def SimInit (ctx : SimCtx) (c : SimConfig) : Prop :=
  (∀ r, c.ph r = .idle) ∧
  (∃ v, c.st.videos.lookup ctx.videoId = some v ∧
    v.status = .queued ∧
    v.transcodingProgress = some { r360p := some 0, r720p := some 0, r1080p := some 0 } ∧
    v.hlsUrls = none) ∧
  (∀ r, ∃ j, c.st.transcodingJobs.lookup (ctx.jobId r) = some j ∧
    j.status = .pending)

/-- The session value stored and returned by `markChunkUploaded` when the
session exists: unchanged for an already-present index, else the chunk
list grows by the sorted insertion of the new index. -/
def markedSession (s : UploadSession) (chunkIndex : Nat) : UploadSession :=
  if chunkIndex ∈ s.uploadedChunks then s
  else { s with uploadedChunks :=
    List.insertionSort (· ≤ ·) (s.uploadedChunks ++ [chunkIndex]) }

/-- A sequence of `markChunkUploaded(sessionId, chunkIndex)` calls
applied in order. -/
def applyMarkCalls (st : MemStorage) (calls : List (String × Nat)) :
    MemStorage :=
  calls.foldl (fun acc c => (acc.markChunkUploaded c.1 c.2).1) st

/-- The job status determined by an invocation's phase and outcome:
`pending` before start, `processing` while running (including after the
final 100-progress report), and `completed`/`failed` after the terminal
section. -/
def phaseJobStatus : SimPhase → Bool → JobStatus
  | .idle, _ => .pending
  | .running, _ => .processing
  | .got100, _ => .processing
  | .finished, b => if b then .completed else .failed

/-- `video.transcodingProgress[r]` with the `|| {}` default. -/
def progressOf (v : Video) (r : Resolution) : Option Rat :=
  (v.transcodingProgress.getD ResMap.empty).get r

/-- `video.hlsUrls[r]` with the `|| {}` default. -/
def hlsOf (v : Video) (r : Resolution) : Option String :=
  (v.hlsUrls.getD ResMap.empty).get r

/-- The inductive invariant of the three concurrent invocations: the
video exists; each job's status is determined by its phase and outcome;
`hlsUrls[r]` is present exactly after a successful terminal section;
`transcodingProgress[r] = 100` exactly from the successful
`onProgress(100)` on; a `completed` video status certifies that every
resolution succeeded and has reached at least `got100`; a `failed`
video status certifies a finished failing resolution. -/
def SimInv (ctx : SimCtx) (o : Resolution → Bool) (c : SimConfig) : Prop :=
  ∃ v, c.st.videos.lookup ctx.videoId = some v ∧
    (∀ r, ∃ j, c.st.transcodingJobs.lookup (ctx.jobId r) = some j ∧
      j.status = phaseJobStatus (c.ph r) (o r)) ∧
    (∀ r, (hlsOf v r).isSome ↔ (c.ph r = .finished ∧ o r = true)) ∧
    (∀ r, progressOf v r = some 100 ↔
      (o r = true ∧ (c.ph r = .got100 ∨ c.ph r = .finished))) ∧
    (v.status = .completed →
      ∀ r, o r = true ∧ (c.ph r = .got100 ∨ c.ph r = .finished)) ∧
    (v.status = .failed → ∃ r, o r = false ∧ c.ph r = .finished)

/-- The `allCompleted` check of the completion section
(src/unnamed/part_008 lines 350-351), evaluated on the progress record
after `currentProgress[resolution] = 100`. -/
def allCompletedCheck (v : Video) (res : Resolution) : Bool :=
  allResolutions.all
    (fun r => ((v.transcodingProgress.getD ResMap.empty).set res 100).get r
      == some (100 : Rat))

/-! ## Concrete fixtures (used by witnesses and counterexamples)

The end-to-end scenario of spec §8: `clip.mp4`, size 5 000 000, chunk
size 2 097 152 → 3 chunks. -/

/-- A session with chunks {0, 1} of 3 received. -/
def demoSession : UploadSession :=
  { id := "s1"
    videoId := "v1"
    filename := "clip.mp4"
    totalSize := 5000000
    chunkSize := 2097152
    totalChunks := 3
    uploadedChunks := [0, 1]
    status := .active
    createdAt := 0
    expiresAt := 86400000 }

/-- The video owning `demoSession`. -/
def demoVideo : Video :=
  { id := "v1"
    filename := "clip.mp4"
    originalSize := 5000000
    mimeType := "video/mp4"
    status := .uploading
    uploadProgress := 0
    createdAt := 0 }

/-- A store holding `demoVideo` and `demoSession`. -/
def demoStorage : MemStorage :=
  { videos := [("v1", demoVideo)]
    uploadSessions := [("s1", demoSession)]
    transcodingJobs := [] }

/-- Server state with the two received chunk files on disk. -/
def demoServer : ServerState :=
  { storage := demoStorage
    chunkFiles := [("s1", 0), ("s1", 1)] }

/-- `demoSession` with all three chunk indices recorded in state. -/
def demoSessionFull : UploadSession :=
  { demoSession with uploadedChunks := [0, 1, 2] }

/-- Server state whose session state says all chunks arrived but whose
disk lost `chunk_2`. -/
def demoServerMissingFile : ServerState :=
  { storage :=
      { videos := [("v1", demoVideo)]
        uploadSessions := [("s1", demoSessionFull)]
        transcodingJobs := [] }
    chunkFiles := [("s1", 0), ("s1", 1)] }

/-- The video as the complete route leaves it: `queued`, zeroed
per-resolution progress, no `hlsUrls`. -/
def simVideo0 : Video :=
  { id := "v1"
    filename := "clip.mp4"
    originalSize := 5000000
    mimeType := "video/mp4"
    status := .queued
    uploadProgress := 100
    transcodingProgress := some { r360p := some 0, r720p := some 0, r1080p := some 0 }
    hlsUrls := none
    createdAt := 0 }

/-- A freshly created pending job. -/
def simJob0 (id : String) (r : Resolution) : TranscodingJob :=
  { id := id
    videoId := "v1"
    resolution := r
    status := .pending
    progress := 0
    inputPath := "uploads/v1.mp4"
    createdAt := 0 }

/-- Store right after the complete route: the video and three pending
jobs. -/
def simStore0 : MemStorage :=
  { videos := [("v1", simVideo0)]
    uploadSessions := []
    transcodingJobs :=
      [("j360", simJob0 "j360" .r360p), ("j720", simJob0 "j720" .r720p),
        ("j1080", simJob0 "j1080" .r1080p)] }

/-- The ids addressed by the three invocations. -/
def simCtx0 : SimCtx :=
  { videoId := "v1"
    jobId := fun r => match r with
      | .r360p => "j360"
      | .r720p => "j720"
      | .r1080p => "j1080" }

/-- Initial configuration: nothing started. -/
def simConfig0 : SimConfig := ⟨simStore0, fun _ => .idle⟩

/-! ## Helper lemmas -/

theorem mapSet_of_lookup_eq {α : Type} (l : List (String × α)) (k : String)
    (v : α) (h : l.lookup k = some v) : mapSet l k v = l := by
  induction l with
  | nil => simp [List.lookup] at h
  | cons p t ih =>
    rw [lookup_cons] at h
    by_cases hp : k = p.1
    · rw [if_pos hp] at h
      obtain rfl : p.2 = v := by injection h
      rw [mapSet, if_pos hp.symm]
      subst hp
      rfl
    · rw [if_neg hp] at h
      rw [mapSet, if_neg (fun hc => hp hc.symm), ih h]

theorem ResMap.get_set_self {α : Type} (m : ResMap α) (r : Resolution)
    (v : α) : (m.set r v).get r = some v := by
  cases r <;> rfl

theorem ResMap.get_set_ne {α : Type} (m : ResMap α) (r r' : Resolution)
    (v : α) (h : r' ≠ r) : (m.set r v).get r' = m.get r' := by
  cases r <;> cases r' <;> first | exact absurd rfl h | rfl

theorem updateVideo_eq (st : MemStorage) (id : String) (v : Video)
    (f : Video → Video) (h : st.videos.lookup id = some v) :
    st.updateVideo id f =
      ({ st with videos := mapSet st.videos id (f v) }, some (f v)) := by
  simp [MemStorage.updateVideo, h]

theorem updateTranscodingJob_eq (st : MemStorage) (id : String)
    (j : TranscodingJob) (f : TranscodingJob → TranscodingJob)
    (h : st.transcodingJobs.lookup id = some j) :
    st.updateTranscodingJob id f =
      ({ st with transcodingJobs := mapSet st.transcodingJobs id (f j) },
       some (f j)) := by
  simp [MemStorage.updateTranscodingJob, h]

theorem updateUploadSession_eq (st : MemStorage) (id : String)
    (s : UploadSession) (f : UploadSession → UploadSession)
    (h : st.uploadSessions.lookup id = some s) :
    st.updateUploadSession id f =
      ({ st with uploadSessions := mapSet st.uploadSessions id (f s) },
       some (f s)) := by
  simp [MemStorage.updateUploadSession, h]

theorem markChunkUploaded_eq (st : MemStorage) (sid : String) (idx : Nat)
    (s : UploadSession) (h : st.uploadSessions.lookup sid = some s) :
    st.markChunkUploaded sid idx =
      (let session := markedSession s idx
       let st1 : MemStorage :=
         { st with uploadSessions := mapSet st.uploadSessions sid session }
       match st.videos.lookup session.videoId with
       | some video =>
         let video' : Video :=
           { video with uploadProgress :=
              ((session.uploadedChunks.length : Rat) /
                (session.totalChunks : Rat)) * 100 }
         ({ st1 with videos := mapSet st.videos session.videoId video' },
          some session)
       | none => (st1, some session)) := by
  rw [MemStorage.markChunkUploaded, h]
  rw [markedSession]
  cases hv : st.videos.lookup (if idx ∈ s.uploadedChunks then s
      else { s with uploadedChunks :=
        List.insertionSort (· ≤ ·) (s.uploadedChunks ++ [idx]) }).videoId <;>
    simp [hv]

theorem markChunkUploaded_sessions_lookup (st : MemStorage) (sid : String)
    (idx : Nat) (s : UploadSession)
    (h : st.uploadSessions.lookup sid = some s) :
    (st.markChunkUploaded sid idx).1.uploadSessions.lookup sid =
      some (markedSession s idx) := by
  rw [markChunkUploaded_eq st sid idx s h]
  cases hv : st.videos.lookup (markedSession s idx).videoId <;>
    simp [hv, lookup_mapSet_self]

theorem markChunkUploaded_sessions_lookup_ne (st : MemStorage)
    (sid sid' : String) (idx : Nat) (hne : sid' ≠ sid) :
    (st.markChunkUploaded sid idx).1.uploadSessions.lookup sid' =
      st.uploadSessions.lookup sid' := by
  cases h : st.uploadSessions.lookup sid with
  | none => rw [MemStorage.markChunkUploaded, h]
  | some s =>
    rw [markChunkUploaded_eq st sid idx s h]
    cases hv : st.videos.lookup (markedSession s idx).videoId <;>
      simp [hv, lookup_mapSet_ne _ _ _ _ hne]

theorem markedSession_length_le (s : UploadSession) (idx : Nat) :
    s.uploadedChunks.length ≤ (markedSession s idx).uploadedChunks.length := by
  rw [markedSession]
  by_cases h : idx ∈ s.uploadedChunks
  · rw [if_pos h]
  · rw [if_neg h]
    have hperm := List.perm_insertionSort (α := Nat) (· ≤ ·)
      (s.uploadedChunks ++ [idx])
    simp only [hperm.length_eq, List.length_append, List.length_singleton]
    omega

theorem markChunkUploaded_length_mono (st : MemStorage) (c : String × Nat)
    (sid : String) (s : UploadSession)
    (h : st.uploadSessions.lookup sid = some s) :
    ∃ s', (st.markChunkUploaded c.1 c.2).1.uploadSessions.lookup sid = some s' ∧
      s.uploadedChunks.length ≤ s'.uploadedChunks.length := by
  by_cases hsid : sid = c.1
  · subst hsid
    exact ⟨markedSession s c.2,
      markChunkUploaded_sessions_lookup st c.1 c.2 s h,
      markedSession_length_le s c.2⟩
  · exact ⟨s, by rw [markChunkUploaded_sessions_lookup_ne st c.1 sid c.2 hsid, h],
      le_refl _⟩

theorem applyMarkCalls_length_mono (calls : List (String × Nat))
    (st : MemStorage) (sid : String) (s : UploadSession)
    (h : st.uploadSessions.lookup sid = some s) :
    ∃ s', (applyMarkCalls st calls).uploadSessions.lookup sid = some s' ∧
      s.uploadedChunks.length ≤ s'.uploadedChunks.length := by
  induction calls generalizing st s with
  | nil => exact ⟨s, h, le_refl _⟩
  | cons c rest ih =>
    obtain ⟨s1, h1, hle1⟩ := markChunkUploaded_length_mono st c sid s h
    obtain ⟨s', h', hle'⟩ := ih _ s1 h1
    exact ⟨s', h', le_trans hle1 hle'⟩

/-- **C3.** `markChunkUploaded` is idempotent and chunk counts are
monotone: (1) for an index already in the session's `uploadedChunks`,
the call returns the very same session and stores it unchanged; (2)
across any sequence of `markChunkUploaded` calls the length of a
session's `uploadedChunks` never decreases; (3) a `POST
/api/upload/chunk` re-upload of an already-recorded index passes
validation and returns the success response (with the unchanged
uploaded-chunk count). -/
theorem markChunkUploaded_idempotent_monotone :
    (∀ (st : MemStorage) (sid : String) (idx : Nat) (s : UploadSession),
      st.uploadSessions.lookup sid = some s → idx ∈ s.uploadedChunks →
      (st.markChunkUploaded sid idx).2 = some s ∧
      (st.markChunkUploaded sid idx).1.uploadSessions.lookup sid = some s) ∧
    (∀ (st : MemStorage) (calls : List (String × Nat)) (sid : String)
      (s : UploadSession), st.uploadSessions.lookup sid = some s →
      ∃ s', (applyMarkCalls st calls).uploadSessions.lookup sid = some s' ∧
        s.uploadedChunks.length ≤ s'.uploadedChunks.length) ∧
    (∀ (st : ServerState) (sid idxStr : String) (size : Nat)
      (s : UploadSession) (i : Int),
      sid ≠ "" → size ≠ 0 →
      st.storage.uploadSessions.lookup sid = some s →
      parseIntJS idxStr = some i →
      ¬(i < 0 ∨ (s.totalChunks : Int) ≤ i) →
      i.toNat ∈ s.uploadedChunks →
      (chunkHandler ⟨some sid, some idxStr, some size⟩ st).1 =
        .success s.uploadedChunks.length s.totalChunks
          (((s.uploadedChunks.length : Rat) / (s.totalChunks : Rat)) * 100)) := by
  refine ⟨?_, ?_, ?_⟩
  · intro st sid idx s h hmem
    have hm : markedSession s idx = s := by rw [markedSession, if_pos hmem]
    constructor
    · have he := markChunkUploaded_eq st sid idx s h
      rw [hm] at he
      rw [he]
      cases hv : st.videos.lookup s.videoId <;> simp [hv]
    · rw [markChunkUploaded_sessions_lookup st sid idx s h, hm]
  · intro st calls sid s h
    exact applyMarkCalls_length_mono calls st sid s h
  · intro st sid idxStr size s i hsid hsize h hparse hbound hmem
    have hm : markedSession s i.toNat = s := by rw [markedSession, if_pos hmem]
    have he := markChunkUploaded_eq st.storage sid i.toNat s h
    rw [hm] at he
    simp only [chunkHandler, if_neg hsid, if_neg hsize, h, hparse,
      if_neg hbound]
    rw [he]
    cases hv : st.storage.videos.lookup s.videoId <;> simp [hv]

/-- Witness for C3: the idempotence, monotonicity and wire-success parts
instantiated on the concrete demo store (index 1 is already recorded). -/
theorem markChunkUploaded_idempotent_monotone_witness :
    ((demoStorage.markChunkUploaded "s1" 1).2 = some demoSession ∧
      (demoStorage.markChunkUploaded "s1" 1).1.uploadSessions.lookup "s1" =
        some demoSession) ∧
    (∃ s', (applyMarkCalls demoStorage [("s1", 2)]).uploadSessions.lookup "s1" =
        some s' ∧
      demoSession.uploadedChunks.length ≤ s'.uploadedChunks.length) ∧
    (chunkHandler ⟨some "s1", some "1", some 1024⟩ demoServer).1 =
      .success demoSession.uploadedChunks.length demoSession.totalChunks
        (((demoSession.uploadedChunks.length : Rat) /
          (demoSession.totalChunks : Rat)) * 100) := by
  refine ⟨?_, ?_, ?_⟩
  · exact markChunkUploaded_idempotent_monotone.1 demoStorage "s1" 1
      demoSession (by rfl) (by decide)
  · exact markChunkUploaded_idempotent_monotone.2.1 demoStorage [("s1", 2)]
      "s1" demoSession (by rfl)
  · exact markChunkUploaded_idempotent_monotone.2.2 demoServer "s1" "1" 1024
      demoSession 1 (by decide) (by decide) (by rfl) (by rfl) (by decide)
      (by decide)

/-- **C6.** A successful `markChunkUploaded` call recomputes the owning
video's `uploadProgress` as `|uploadedChunks| / totalChunks · 100`
(with the updated chunk list) before returning. -/
theorem markChunkUploaded_recomputes_uploadProgress (st : MemStorage)
    (sid : String) (idx : Nat) (s : UploadSession) (v : Video)
    (hs : st.uploadSessions.lookup sid = some s)
    (hv : st.videos.lookup s.videoId = some v) :
    ∃ s' v', (st.markChunkUploaded sid idx).2 = some s' ∧
      (st.markChunkUploaded sid idx).1.videos.lookup s.videoId = some v' ∧
      v'.uploadProgress =
        ((s'.uploadedChunks.length : Rat) / (s'.totalChunks : Rat)) * 100 := by
  have he := markChunkUploaded_eq st sid idx s hs
  have hvid : (markedSession s idx).videoId = s.videoId := by
    rw [markedSession]; by_cases h : idx ∈ s.uploadedChunks <;> simp [h]
  refine ⟨markedSession s idx,
    { v with uploadProgress :=
        (((markedSession s idx).uploadedChunks.length : Rat) /
          ((markedSession s idx).totalChunks : Rat)) * 100 }, ?_, ?_, ?_⟩
  · simp only [he]
    rw [hvid]
    simp [hv]
  · simp only [he]
    rw [hvid]
    simp [hv, lookup_mapSet_self]
  · simp

/-- Witness for C6: marking chunk 2 on the demo store sets the video's
progress to `3/3 · 100 = 100`. -/
theorem markChunkUploaded_recomputes_uploadProgress_witness :
    ∃ s' v', (demoStorage.markChunkUploaded "s1" 2).2 = some s' ∧
      (demoStorage.markChunkUploaded "s1" 2).1.videos.lookup
        demoSession.videoId = some v' ∧
      v'.uploadProgress =
        ((s'.uploadedChunks.length : Rat) / (s'.totalChunks : Rat)) * 100 :=
  markChunkUploaded_recomputes_uploadProgress demoStorage "s1" 2 demoSession
    demoVideo (by rfl) (by rfl)

theorem markedSession_sorted (s : UploadSession) (idx : Nat)
    (hs : s.uploadedChunks.Sorted (· < ·)) :
    (markedSession s idx).uploadedChunks.Sorted (· < ·) := by
  rw [markedSession]
  by_cases h : idx ∈ s.uploadedChunks
  · rwa [if_pos h]
  · rw [if_neg h]
    have hle : (List.insertionSort (· ≤ ·)
        (s.uploadedChunks ++ [idx])).Sorted (· ≤ ·) :=
      List.sorted_insertionSort (· ≤ ·) _
    have hnd : (s.uploadedChunks ++ [idx]).Nodup := by
      refine List.Nodup.append hs.nodup (List.nodup_singleton idx) ?_
      intro a ha hb
      rw [List.mem_singleton] at hb
      exact h (hb ▸ ha)
    have hnd' : (List.insertionSort (· ≤ ·)
        (s.uploadedChunks ++ [idx])).Nodup :=
      (List.perm_insertionSort (· ≤ ·) _).nodup_iff.mpr hnd
    exact List.Sorted.lt_of_le hle hnd'

/-- **C10.** The `uploadedChunks` array of a session is always sorted
strictly ascending (hence duplicate-free): a fresh session starts with
the empty (sorted) list, and `markChunkUploaded` — the only storage
operation that rewrites the array — preserves strict sortedness both in
the returned session and in the stored one. -/
theorem uploadedChunks_sorted_invariant :
    (∀ (st : MemStorage) (id videoId filename : String)
      (totalSize chunkSize now : Nat),
      (st.createUploadSession id videoId filename totalSize chunkSize
        now).2.uploadedChunks.Sorted (· < ·)) ∧
    (∀ (st : MemStorage) (sid : String) (idx : Nat) (s s' : UploadSession),
      st.uploadSessions.lookup sid = some s →
      s.uploadedChunks.Sorted (· < ·) →
      (st.markChunkUploaded sid idx).2 = some s' →
      s'.uploadedChunks.Sorted (· < ·) ∧
      (st.markChunkUploaded sid idx).1.uploadSessions.lookup sid = some s') := by
  constructor
  · intro st id videoId filename totalSize chunkSize now
    simp [MemStorage.createUploadSession, List.Sorted]
  · intro st sid idx s s' h hs h'
    have he : (st.markChunkUploaded sid idx).2 = some (markedSession s idx) := by
      simp only [markChunkUploaded_eq st sid idx s h]
      cases hv : st.videos.lookup (markedSession s idx).videoId <;> simp [hv]
    rw [he] at h'
    obtain rfl : markedSession s idx = s' := by injection h'
    exact ⟨markedSession_sorted s idx hs,
      markChunkUploaded_sessions_lookup st sid idx s h⟩

/-- Witness for C10: a fresh session's chunk list is sorted, and marking
index 2 on the demo session (chunks `[0, 1]`) keeps the list sorted. -/
theorem uploadedChunks_sorted_invariant_witness :
    (demoStorage.createUploadSession "s2" "v2" "b.mp4" 100 10
      0).2.uploadedChunks.Sorted (· < ·) ∧
    ((demoStorage.markChunkUploaded "s1" 2).2 =
        some (markedSession demoSession 2) ∧
      (markedSession demoSession 2).uploadedChunks.Sorted (· < ·) ∧
      (demoStorage.markChunkUploaded "s1" 2).1.uploadSessions.lookup "s1" =
        some (markedSession demoSession 2)) := by
  refine ⟨uploadedChunks_sorted_invariant.1 demoStorage "s2" "v2" "b.mp4"
    100 10 0, ?_, ?_⟩
  · show (demoStorage.markChunkUploaded "s1" 2).2 = _
    decide
  · have := uploadedChunks_sorted_invariant.2 demoStorage "s1" 2 demoSession
      (markedSession demoSession 2) (by rfl)
      (by decide) (by decide)
    exact ⟨this.1, this.2⟩

/-- **C7.** `POST /api/upload/chunk` validation (given well-formed form
fields): a missing chunk body or an empty chunk body is rejected with
400 leaving the state untouched; an unknown session is rejected with
404; an index that does not parse to an integer in `[0, totalChunks)`
is rejected with 400; and exactly the requests passing all validations
promote the chunk file and run `markChunkUploaded`, answering the
success payload. -/
theorem chunkHandler_validation :
    (∀ (st : ServerState) (sid idxStr : String), sid ≠ "" →
      chunkHandler ⟨some sid, some idxStr, none⟩ st = (.noChunkData, st)) ∧
    (∀ (st : ServerState) (sid idxStr : String), sid ≠ "" →
      chunkHandler ⟨some sid, some idxStr, some 0⟩ st = (.emptyChunk, st)) ∧
    (∀ (st : ServerState) (sid idxStr : String) (size : Nat),
      sid ≠ "" → size ≠ 0 →
      st.storage.uploadSessions.lookup sid = none →
      chunkHandler ⟨some sid, some idxStr, some size⟩ st =
        (.sessionNotFound, st)) ∧
    (∀ (st : ServerState) (sid idxStr : String) (size : Nat)
      (s : UploadSession),
      sid ≠ "" → size ≠ 0 →
      st.storage.uploadSessions.lookup sid = some s →
      (parseIntJS idxStr = none ∨
        ∃ i, parseIntJS idxStr = some i ∧
          (i < 0 ∨ (s.totalChunks : Int) ≤ i)) →
      chunkHandler ⟨some sid, some idxStr, some size⟩ st =
        (.invalidIndex, st)) ∧
    (∀ (st : ServerState) (sid idxStr : String) (size : Nat)
      (s : UploadSession) (i : Int),
      sid ≠ "" → size ≠ 0 →
      st.storage.uploadSessions.lookup sid = some s →
      parseIntJS idxStr = some i →
      ¬(i < 0 ∨ (s.totalChunks : Int) ≤ i) →
      (chunkHandler ⟨some sid, some idxStr, some size⟩ st).2.chunkFiles =
        promoteChunk st.chunkFiles (sid, i.toNat) ∧
      (chunkHandler ⟨some sid, some idxStr, some size⟩ st).2.storage =
        (st.storage.markChunkUploaded sid i.toNat).1 ∧
      (chunkHandler ⟨some sid, some idxStr, some size⟩ st).1 =
        .success (markedSession s i.toNat).uploadedChunks.length
          (markedSession s i.toNat).totalChunks
          (((markedSession s i.toNat).uploadedChunks.length : Rat) /
            ((markedSession s i.toNat).totalChunks : Rat) * 100)) := by
  refine ⟨?_, ?_, ?_, ?_, ?_⟩
  · intro st sid idxStr hsid
    simp only [chunkHandler, if_neg hsid]
  · intro st sid idxStr hsid
    simp [chunkHandler, if_neg hsid]
  · intro st sid idxStr size hsid hsize h
    simp only [chunkHandler, if_neg hsid, if_neg hsize, h]
  · intro st sid idxStr size s hsid hsize h hbad
    rcases hbad with hnone | ⟨i, hi, hout⟩
    · simp only [chunkHandler, if_neg hsid, if_neg hsize, h, hnone]
    · simp only [chunkHandler, if_neg hsid, if_neg hsize, h, hi, if_pos hout]
  · intro st sid idxStr size s i hsid hsize h hi hbound
    have he := markChunkUploaded_eq st.storage sid i.toNat s h
    refine ⟨?_, ?_, ?_⟩ <;>
    · simp only [chunkHandler, if_neg hsid, if_neg hsize, h, hi,
        if_neg hbound, he]
      cases hv : st.storage.videos.lookup (markedSession s i.toNat).videoId <;>
        simp [hv]

/-- Witness for C7: each validation branch of the chunk route evaluated
on the demo store. -/
theorem chunkHandler_validation_witness :
    chunkHandler ⟨some "s1", some "0", none⟩ demoServer =
      (.noChunkData, demoServer) ∧
    chunkHandler ⟨some "s1", some "0", some 0⟩ demoServer =
      (.emptyChunk, demoServer) ∧
    chunkHandler ⟨some "nope", some "0", some 5⟩ demoServer =
      (.sessionNotFound, demoServer) ∧
    chunkHandler ⟨some "s1", some "9", some 5⟩ demoServer =
      (.invalidIndex, demoServer) ∧
    ((chunkHandler ⟨some "s1", some "2", some 5⟩ demoServer).2.chunkFiles =
        promoteChunk demoServer.chunkFiles ("s1", (2 : Int).toNat) ∧
      (chunkHandler ⟨some "s1", some "2", some 5⟩ demoServer).2.storage =
        (demoServer.storage.markChunkUploaded "s1" (2 : Int).toNat).1 ∧
      (chunkHandler ⟨some "s1", some "2", some 5⟩ demoServer).1 =
        .success (markedSession demoSession (2 : Int).toNat).uploadedChunks.length
          (markedSession demoSession (2 : Int).toNat).totalChunks
          (((markedSession demoSession (2 : Int).toNat).uploadedChunks.length : Rat) /
            ((markedSession demoSession (2 : Int).toNat).totalChunks : Rat) * 100)) := by
  refine ⟨?_, ?_, ?_, ?_, ?_⟩
  · exact chunkHandler_validation.1 demoServer "s1" "0" (by decide)
  · exact chunkHandler_validation.2.1 demoServer "s1" "0" (by decide)
  · exact chunkHandler_validation.2.2.1 demoServer "nope" "0" 5 (by decide)
      (by decide) (by rfl)
  · exact chunkHandler_validation.2.2.2.1 demoServer "s1" "9" 5 demoSession
      (by decide) (by decide) (by rfl)
      (Or.inr ⟨9, by rfl, Or.inr (by decide)⟩)
  · exact chunkHandler_validation.2.2.2.2 demoServer "s1" "2" 5 demoSession 2
      (by decide) (by decide) (by rfl) (by rfl) (by decide)

/-- Counterexample for C1 as stated: with session chunks `{0, 1}` of 3,
`POST /api/upload/complete` answers 400 `uploadIncomplete` carrying the
counts `(2, 3)` — not the missing-index list `[2]` the claim asserts
(that list is produced only by the separate on-disk check). -/
theorem completeHandler_incomplete_has_no_missing_list :
    (completeHandler "s1" (fun _ => "j") 0 demoServer).1 =
      .uploadIncomplete 2 3 ∧
    (completeHandler "s1" (fun _ => "j") 0 demoServer).1.status = 400 ∧
    ∀ (l : List Nat) (n : Nat),
      (completeHandler "s1" (fun _ => "j") 0 demoServer).1 ≠
        .missingChunkFiles l n := by
  refine ⟨by decide, by decide, ?_⟩
  intro l n h
  rw [show (completeHandler "s1" (fun _ => "j") 0 demoServer).1 =
    .uploadIncomplete 2 3 from by decide] at h
  exact CompleteResponse.noConfusion h

/-- **C1 (amended).** When the session exists but
`|uploadedChunks| ≠ totalChunks`, the complete route answers 400 with
the uploaded and total chunk counts (no index list); the missing-index
list, capped at the first 10, is answered (also with 400) only in the
case where the state says all chunks arrived but some `chunk_<i>` files
are absent on disk. -/
theorem completeHandler_error_responses :
    (∀ (st : ServerState) (sessionId : String) (jobId : Resolution → String)
      (now : Nat) (s : UploadSession),
      st.storage.uploadSessions.lookup sessionId = some s →
      s.uploadedChunks.length ≠ s.totalChunks →
      completeHandler sessionId jobId now st =
        (.uploadIncomplete s.uploadedChunks.length s.totalChunks, st) ∧
      (CompleteResponse.uploadIncomplete s.uploadedChunks.length
        s.totalChunks).status = 400) ∧
    (∀ (st : ServerState) (sessionId : String) (jobId : Resolution → String)
      (now : Nat) (s : UploadSession),
      st.storage.uploadSessions.lookup sessionId = some s →
      s.uploadedChunks.length = s.totalChunks →
      0 < ((List.range s.totalChunks).filter
        (fun i => (sessionId, i) ∉ st.chunkFiles)).length →
      completeHandler sessionId jobId now st =
        (.missingChunkFiles
          (((List.range s.totalChunks).filter
            (fun i => (sessionId, i) ∉ st.chunkFiles)).take 10)
          ((List.range s.totalChunks).filter
            (fun i => (sessionId, i) ∉ st.chunkFiles)).length, st) ∧
      (CompleteResponse.missingChunkFiles
        (((List.range s.totalChunks).filter
          (fun i => (sessionId, i) ∉ st.chunkFiles)).take 10)
        ((List.range s.totalChunks).filter
          (fun i => (sessionId, i) ∉ st.chunkFiles)).length).status = 400) := by
  constructor
  · intro st sessionId jobId now s h hne
    refine ⟨?_, rfl⟩
    simp only [completeHandler, h, if_pos hne]
  · intro st sessionId jobId now s h heq hmiss
    refine ⟨?_, rfl⟩
    simp only [completeHandler, h, heq,
      if_neg (fun hc : s.totalChunks ≠ s.totalChunks => hc rfl),
      if_pos hmiss]

/-- Witness for the amended C1: the two 400 branches evaluated on the
demo stores (chunks `{0,1}` of 3; and full state with `chunk_2` lost on
disk). -/
theorem completeHandler_error_responses_witness :
    (completeHandler "s1" (fun _ => "j") 0 demoServer =
        (.uploadIncomplete demoSession.uploadedChunks.length
          demoSession.totalChunks, demoServer) ∧
      (CompleteResponse.uploadIncomplete demoSession.uploadedChunks.length
        demoSession.totalChunks).status = 400) ∧
    (completeHandler "s1" (fun _ => "j") 0 demoServerMissingFile =
        (.missingChunkFiles
          (((List.range demoSessionFull.totalChunks).filter
            (fun i => ("s1", i) ∉ demoServerMissingFile.chunkFiles)).take 10)
          ((List.range demoSessionFull.totalChunks).filter
            (fun i => ("s1", i) ∉ demoServerMissingFile.chunkFiles)).length,
          demoServerMissingFile) ∧
      (CompleteResponse.missingChunkFiles
        (((List.range demoSessionFull.totalChunks).filter
          (fun i => ("s1", i) ∉ demoServerMissingFile.chunkFiles)).take 10)
        ((List.range demoSessionFull.totalChunks).filter
          (fun i => ("s1", i) ∉ demoServerMissingFile.chunkFiles)).length).status
        = 400) := by
  constructor
  · exact completeHandler_error_responses.1 demoServer "s1" (fun _ => "j") 0
      demoSession (by rfl) (by decide)
  · exact completeHandler_error_responses.2 demoServerMissingFile "s1"
      (fun _ => "j") 0 demoSessionFull (by rfl) (by decide) (by decide)

theorem lookup_eq_none_iff {α : Type} (l : List (String × α)) (k : String) :
    l.lookup k = none ↔ k ∉ l.map Prod.fst := by
  induction l with
  | nil => simp [List.lookup]
  | cons p t ih =>
    rw [lookup_cons]
    by_cases hp : k = p.1
    · simp [hp]
    · rw [if_neg hp, ih]
      simp only [List.map_cons, List.mem_cons, not_or]
      constructor
      · exact fun h => ⟨hp, h⟩
      · exact fun h => h.2

theorem mem_cleanupOrphanedSessions (entries : List DirEntry)
    (active : List String) (expiryMap : Option (List (String × Int)))
    (now : Int) (name : String) :
    name ∈ cleanupOrphanedSessions entries active expiryMap now ↔
      ∃ e ∈ entries, e.isDir = true ∧ startsWithJS e.name "temp_" = false ∧
        shouldCleanSessionDir active expiryMap now e = true ∧
        e.name = name := by
  simp only [cleanupOrphanedSessions, List.mem_map, List.mem_filter,
    Bool.and_eq_true, Bool.not_eq_true']
  constructor
  · rintro ⟨e, ⟨he, ⟨⟨hdir, htemp⟩, hclean⟩⟩, hname⟩
    exact ⟨e, he, hdir, htemp, hclean, hname⟩
  · rintro ⟨e, he, hdir, htemp, hclean, hname⟩
    exact ⟨e, ⟨he, ⟨⟨hdir, htemp⟩, hclean⟩⟩, hname⟩

/-- Counterexample for C4 as stated: in a periodic GC run, the chunk
directory of session `s1` — which is in the Active set — is deleted
because its declared expiry (24 h) has passed, contradicting "no chunk
directory belonging to a session currently in the Active set is
deleted". -/
theorem gc_deletes_active_expired_dir :
    "s1" ∈ getActiveSessionIds demoStorage ∧
    periodicSessionCleanup demoStorage
      [⟨"s1", true, some 86400001⟩] 86400001 = ["s1"] := by decide

/-- **C4 (amended).** In a periodic GC run the expiry map and the active
id set are both derived from the Active sessions, and: (1) a chunk
directory whose session is in the expiry map with an expiry that has
not passed is never deleted — in particular an Active, unexpired
session is safe; (2) a deleted directory either belongs to a session in
the expiry map (hence Active) whose declared expiry has passed, or
belongs to no Active session and its mtime is older than 30 minutes (or
its stat failed). -/
theorem cleanupOrphanedSessions_policy :
    (∀ (st : MemStorage) (entries : List DirEntry) (now : Int)
      (name : String) (t : Int),
      (getSessionExpiryMap st).lookup name = some t → now ≤ t →
      name ∉ periodicSessionCleanup st entries now) ∧
    (∀ (st : MemStorage) (entries : List DirEntry) (now : Int)
      (name : String),
      name ∈ periodicSessionCleanup st entries now →
      (∃ t, (getSessionExpiryMap st).lookup name = some t ∧ t < now) ∨
      ((getSessionExpiryMap st).lookup name = none ∧
        name ∉ getActiveSessionIds st ∧
        ∃ e ∈ entries, e.name = name ∧ e.isDir = true ∧
          (e.mtime = none ∨ ∃ mt, e.mtime = some mt ∧
            ORPHAN_SESSION_MAX_AGE_MS < now - mt))) := by
  have hids : ∀ st : MemStorage,
      (getSessionExpiryMap st).map Prod.fst = getActiveSessionIds st := by
    intro st
    simp [getSessionExpiryMap, getActiveSessionIds, List.map_map,
      Function.comp]
  constructor
  · intro st entries now name t hlook hle hmem
    rw [periodicSessionCleanup,
      mem_cleanupOrphanedSessions entries _ _ now name] at hmem
    obtain ⟨e, _, _, _, hclean, hname⟩ := hmem
    rw [shouldCleanSessionDir, hname, hlook] at hclean
    simp only [decide_eq_true_eq] at hclean
    exact absurd hclean (not_lt.mpr hle)
  · intro st entries now name hmem
    rw [periodicSessionCleanup,
      mem_cleanupOrphanedSessions entries _ _ now name] at hmem
    obtain ⟨e, hent, hdir, _, hclean, hname⟩ := hmem
    rw [shouldCleanSessionDir, hname] at hclean
    cases hlook : (getSessionExpiryMap st).lookup name with
    | some t =>
      rw [hlook] at hclean
      simp only [decide_eq_true_eq] at hclean
      exact Or.inl ⟨t, rfl, hclean⟩
    | none =>
      rw [hlook] at hclean
      have hnact : name ∉ getActiveSessionIds st := by
        rw [← hids st]
        exact (lookup_eq_none_iff _ _).mp hlook
      rw [if_pos hnact] at hclean
      refine Or.inr ⟨rfl, hnact, e, hent, hname, hdir, ?_⟩
      cases hmt : e.mtime with
      | none => exact Or.inl rfl
      | some mt =>
        rw [hmt] at hclean
        simp only [decide_eq_true_eq] at hclean
        exact Or.inr ⟨mt, rfl, by omega⟩

/-- Witness for the amended C4: the Active unexpired session's directory
survives the run (even with an unreadable mtime), and a deleted orphan
directory satisfies the characterization. -/
theorem cleanupOrphanedSessions_policy_witness :
    "s1" ∉ periodicSessionCleanup demoStorage [⟨"s1", true, none⟩] 100 ∧
    ((∃ t, (getSessionExpiryMap demoStorage).lookup "old" = some t ∧
        t < 1800001) ∨
      ((getSessionExpiryMap demoStorage).lookup "old" = none ∧
        "old" ∉ getActiveSessionIds demoStorage ∧
        ∃ e ∈ [DirEntry.mk "old" true (some 0)], e.name = "old" ∧
          e.isDir = true ∧
          (e.mtime = none ∨ ∃ mt, e.mtime = some mt ∧
            ORPHAN_SESSION_MAX_AGE_MS < 1800001 - mt))) := by
  constructor
  · exact cleanupOrphanedSessions_policy.1 demoStorage [⟨"s1", true, none⟩]
      100 "s1" 86400000 (by decide) (by decide)
  · exact cleanupOrphanedSessions_policy.2 demoStorage
      [⟨"old", true, some 0⟩] 1800001 "old" (by decide)

/-- **C5.** The encoder driver's progress and settlement contract: an
`out_time_ms=<µs>` line under a known positive duration reports exactly
`min((µs/10⁶)/duration · 100, 99)`; close with exit code 0 reports a
final 100 and resolves with the playlist path; any other exit code (or
a `null` code) rejects with that code; a spawn error rejects with the
error. -/
theorem transcodeVideoFile_progress_contract :
    (∀ (path : String) (d micros : Nat) (rest : List FfmpegEvent),
      0 < d →
      transcodeVideoFile path d (.outTimeLine micros :: rest) =
        (min (((micros : Rat) / 1000000) / (d : Rat) * 100) 99 ::
          (transcodeVideoFile path d rest).1,
         (transcodeVideoFile path d rest).2)) ∧
    (∀ (path : String) (d : Nat) (rest : List FfmpegEvent),
      transcodeVideoFile path d (.close (some 0) :: rest) =
        ([100], some (.resolved path))) ∧
    (∀ (path : String) (d : Nat) (c : Option Int) (rest : List FfmpegEvent),
      c ≠ some 0 →
      transcodeVideoFile path d (.close c :: rest) =
        ([], some (.rejectedExit c))) ∧
    (∀ (path : String) (d : Nat) (msg : String) (rest : List FfmpegEvent),
      transcodeVideoFile path d (.spawnError msg :: rest) =
        ([], some (.rejectedSpawn msg))) := by
  refine ⟨?_, ?_, ?_, ?_⟩
  · intro path d micros rest hd
    simp [transcodeVideoFile, if_pos hd]
  · intro path d rest
    simp [transcodeVideoFile]
  · intro path d c rest hc
    simp [transcodeVideoFile, if_neg hc]
  · intro path d msg rest
    simp [transcodeVideoFile]

/-- Witness for C5: a 10-second input at `out_time_ms=5000000` reports
50; close 0 resolves; exit code 1 and a spawn error reject. -/
theorem transcodeVideoFile_progress_contract_witness :
    (transcodeVideoFile "p" 10 [.outTimeLine 5000000] =
      (min (((5000000 : Rat) / 1000000) / (10 : Rat) * 100) 99 ::
        (transcodeVideoFile "p" 10 []).1,
       (transcodeVideoFile "p" 10 []).2)) ∧
    transcodeVideoFile "p" 10 [.close (some 0)] =
      ([100], some (.resolved "p")) ∧
    transcodeVideoFile "p" 10 [.close (some 1)] =
      ([], some (.rejectedExit (some 1))) ∧
    transcodeVideoFile "p" 10 [.spawnError "ENOENT"] =
      ([], some (.rejectedSpawn "ENOENT")) := by
  refine ⟨?_, ?_, ?_, ?_⟩
  · exact transcodeVideoFile_progress_contract.1 "p" 10 5000000 [] (by decide)
  · exact transcodeVideoFile_progress_contract.2.1 "p" 10 []
  · exact transcodeVideoFile_progress_contract.2.2.1 "p" 10 (some 1) []
      (by decide)
  · exact transcodeVideoFile_progress_contract.2.2.2 "p" 10 "ENOENT" []

/-- **C8.** `emitEvent` always dispatches the event synchronously to
in-process subscribers, for every broker state (absent, publishing
successfully, or failing), and the call never fails: the broker
rejection is swallowed. -/
theorem emitEvent_always_delivers_locally :
    ∀ (type videoId : String) (data : Option (List (String × String)))
      (ts : Nat) (bus : EventBus),
      ∃ bus', emitEvent type videoId data ts bus = .ok bus' ∧
        bus'.localDelivered =
          bus.localDelivered ++ [⟨type, videoId, data, ts⟩] := by
  intro type videoId data ts bus
  cases hb : bus.broker with
  | none =>
    refine ⟨⟨bus.localDelivered ++ [⟨type, videoId, data, ts⟩], bus.broker⟩,
      ?_, rfl⟩
    simp [emitEvent, hb]
  | some conn =>
    cases hpo : conn.publishOutcome with
    | ok u =>
      refine ⟨⟨bus.localDelivered ++ [⟨type, videoId, data, ts⟩],
        some ⟨conn.publishOutcome, conn.published ++
          [("video-events", ⟨type, videoId, data, ts⟩)]⟩⟩, ?_, rfl⟩
      simp [emitEvent, hb, hpo]
    | error e =>
      refine ⟨⟨bus.localDelivered ++ [⟨type, videoId, data, ts⟩],
        some conn⟩, ?_, rfl⟩
      simp [emitEvent, hb, hpo]

theorem two_mem_le_length {α : Type} {a b : α} {l : List α} (ha : a ∈ l)
    (hb : b ∈ l) (hne : a ≠ b) : 2 ≤ l.length := by
  match l with
  | [] => simp at ha
  | [x] =>
    rw [List.mem_singleton] at ha hb
    exact absurd (ha.trans hb.symm) hne
  | x :: y :: t =>
    rw [List.length_cons, List.length_cons]
    omega

/-- **C9.** `DELETE /api/videos/:id` on an unknown id: the response is
404 and the video map is untouched, yet the handler has already removed
the `transcoded/<id>` tree and the `uploads/<id><ext>` file (assuming
at most one of the probed extensions exists, as the upload route writes
exactly one source file per video). -/
theorem deleteVideoHandler_404_still_cleans_disk
    (videoId : String) (st : MemStorage) (disk : VideoDisk)
    (hnone : st.videos.lookup videoId = none)
    (hone : (uploadExtensions.filter
      (fun e => (videoId, e) ∈ disk.uploadFiles)).length ≤ 1) :
    (deleteVideoHandler videoId st disk).1 = .notFound ∧
    (deleteVideoHandler videoId st disk).2.1.videos = st.videos ∧
    videoId ∉ (deleteVideoHandler videoId st disk).2.2.transcodedDirs ∧
    ∀ ext ∈ uploadExtensions,
      (videoId, ext) ∉ (deleteVideoHandler videoId st disk).2.2.uploadFiles := by
  have hdel : st.deleteVideo videoId =
      ({ st with videos := mapDelete st.videos videoId }, false) := by
    rw [MemStorage.deleteVideo, hnone]
    rfl
  have hmapdel : mapDelete st.videos videoId = st.videos :=
    mapDelete_of_lookup_none st.videos videoId hnone
  have hnotdir : ∀ d : VideoDisk, videoId ∉
      ((cleanupTranscodedFiles d videoId).1).transcodedDirs := by
    intro d
    rw [cleanupTranscodedFiles]
    by_cases h : videoId ∈ d.transcodedDirs
    · rw [if_pos h]
      simp [List.mem_filter]
    · rw [if_neg h]
      exact h
  have hnotup : ∀ d : VideoDisk,
      (uploadExtensions.filter
        (fun e => (videoId, e) ∈ d.uploadFiles)).length ≤ 1 →
      ∀ ext ∈ uploadExtensions,
        (videoId, ext) ∉ ((cleanupUploadFile d videoId).1).uploadFiles := by
    intro d hone1 ext hext
    rw [cleanupUploadFile]
    cases hf : uploadExtensions.find?
        (fun e => (videoId, e) ∈ d.uploadFiles) with
    | none =>
      simp only
      intro hmem
      have := List.find?_eq_none.mp hf ext hext
      simp only [decide_eq_true_eq] at this
      exact this hmem
    | some e0 =>
      simp only [List.mem_filter]
      rintro ⟨hmem, hne⟩
      have he0p : (videoId, e0) ∈ d.uploadFiles := by
        have := List.find?_some hf
        simpa using this
      have he0mem : e0 ∈ uploadExtensions := List.mem_of_find?_eq_some hf
      simp only [decide_eq_true_eq] at hne
      have hnee : ext ≠ e0 := by
        intro hc
        exact hne (by rw [hc])
      have hextf : ext ∈ uploadExtensions.filter
          (fun e => (videoId, e) ∈ d.uploadFiles) :=
        List.mem_filter.mpr ⟨hext, by simpa using hmem⟩
      have he0f : e0 ∈ uploadExtensions.filter
          (fun e => (videoId, e) ∈ d.uploadFiles) :=
        List.mem_filter.mpr ⟨he0mem, by simpa using he0p⟩
      have := two_mem_le_length hextf he0f hnee
      omega
  have hupdirs : ∀ d : VideoDisk,
      (cleanupUploadFile d videoId).1.transcodedDirs = d.transcodedDirs := by
    intro d
    rw [cleanupUploadFile]
    cases hf : uploadExtensions.find?
      (fun e => (videoId, e) ∈ d.uploadFiles) <;> simp
  have hfeq : (cleanupTranscodedFiles disk videoId).1.uploadFiles =
      disk.uploadFiles := by
    rw [cleanupTranscodedFiles]
    by_cases h : videoId ∈ disk.transcodedDirs
    · rw [if_pos h]
    · rw [if_neg h]
  refine ⟨?_, ?_, ?_, ?_⟩
  · rw [deleteVideoHandler, hdel]
    simp
  · rw [deleteVideoHandler, hdel]
    simpa using hmapdel
  · rw [deleteVideoHandler, hdel]
    simpa [hupdirs] using hnotdir disk
  · rw [deleteVideoHandler, hdel]
    intro ext hext
    simpa using hnotup (cleanupTranscodedFiles disk videoId).1
      (by rw [hfeq]; exact hone) ext hext

/-- Witness for C9: deleting unknown id `ghost` answers 404 while its
transcoded tree and `.mp4` upload vanish from disk. -/
theorem deleteVideoHandler_404_still_cleans_disk_witness :
    (deleteVideoHandler "ghost" demoStorage
      ⟨["ghost"], [("ghost", ".mp4")]⟩).1 = .notFound ∧
    (deleteVideoHandler "ghost" demoStorage
      ⟨["ghost"], [("ghost", ".mp4")]⟩).2.1.videos = demoStorage.videos ∧
    "ghost" ∉ (deleteVideoHandler "ghost" demoStorage
      ⟨["ghost"], [("ghost", ".mp4")]⟩).2.2.transcodedDirs ∧
    ∀ ext ∈ uploadExtensions,
      ("ghost", ext) ∉ (deleteVideoHandler "ghost" demoStorage
        ⟨["ghost"], [("ghost", ".mp4")]⟩).2.2.uploadFiles :=
  deleteVideoHandler_404_still_cleans_disk "ghost" demoStorage
    ⟨["ghost"], [("ghost", ".mp4")]⟩ (by rfl) (by decide)


/-! ### Handler characterizations (C2) -/

theorem simStartHandler_eq (st : MemStorage) (vid jid : String) (now : Nat)
    (v : Video) (jr : TranscodingJob)
    (hv : st.videos.lookup vid = some v)
    (hj : st.transcodingJobs.lookup jid = some jr) :
    simStartHandler st vid jid now =
      { st with
        videos := mapSet st.videos vid { v with status := .transcoding }
        transcodingJobs := mapSet st.transcodingJobs jid
          { jr with status := .processing, startedAt := some now } } := by
  have h1 := updateVideo_eq st vid v
    (fun v => { v with status := .transcoding }) hv
  have h2 : ∀ X : List (String × Video),
      ({ st with videos := X } : MemStorage).transcodingJobs.lookup jid =
        some jr := fun _ => hj
  simp only [simStartHandler, h1]
  rw [updateTranscodingJob_eq _ jid jr _ (h2 _)]

theorem simProgressHandler_eq (st : MemStorage) (vid jid : String)
    (res : Resolution) (p : Rat) (v : Video) (jr : TranscodingJob)
    (hv : st.videos.lookup vid = some v)
    (hj : st.transcodingJobs.lookup jid = some jr) :
    simProgressHandler st vid jid res p =
      { st with
        videos := mapSet st.videos vid { v with transcodingProgress := some ((v.transcodingProgress.getD ResMap.empty).set res p) }
        transcodingJobs := mapSet st.transcodingJobs jid
          { jr with progress := p } } := by
  have h1 := updateVideo_eq st vid v
    (fun w => { w with transcodingProgress := some ((v.transcodingProgress.getD ResMap.empty).set res p) }) hv
  have h2 : ∀ X : List (String × Video),
      ({ st with videos := X } : MemStorage).transcodingJobs.lookup jid =
        some jr := fun _ => hj
  simp only [simProgressHandler, hv, h1]
  rw [updateTranscodingJob_eq _ jid jr _ (h2 _)]

theorem simFailHandler_eq (st : MemStorage) (vid jid : String)
    (msg : String) (now : Nat) (v : Video) (jr : TranscodingJob)
    (hv : st.videos.lookup vid = some v)
    (hj : st.transcodingJobs.lookup jid = some jr) :
    simFailHandler st vid jid msg now =
      { st with
        videos := mapSet st.videos vid
          { v with status := .failed, errorMessage := some msg }
        transcodingJobs := mapSet st.transcodingJobs jid
          { jr with status := .failed, completedAt := some now } } := by
  have h2 := updateTranscodingJob_eq st jid jr
    (fun j => { j with status := .failed, completedAt := some now }) hj
  have h1 : ∀ X : List (String × TranscodingJob),
      ({ st with transcodingJobs := X } : MemStorage).videos.lookup vid =
        some v := fun _ => hv
  simp only [simFailHandler, h2]
  rw [updateVideo_eq _ vid v _ (h1 _)]

theorem simCompleteHandler_eq (st : MemStorage) (vid jid : String)
    (res : Resolution) (now : Nat) (v : Video) (jr : TranscodingJob)
    (hv : st.videos.lookup vid = some v)
    (hj : st.transcodingJobs.lookup jid = some jr) :
    simCompleteHandler st vid jid res now =
      { st with
        videos := mapSet st.videos vid
          { v with
            hlsUrls := some ((v.hlsUrls.getD ResMap.empty).set res (streamUrl vid res))
            transcodingProgress := some ((v.transcodingProgress.getD ResMap.empty).set res 100)
            status := if allCompletedCheck v res then .completed else .transcoding
            completedAt := if allCompletedCheck v res then some now else none }
        transcodingJobs := mapSet st.transcodingJobs jid
          { jr with
            status := .completed
            progress := 100
            outputPath := some (streamUrl vid res)
            completedAt := some now } } := by
  have h2 := updateTranscodingJob_eq st jid jr
    (fun j => { j with
      status := .completed
      progress := 100
      outputPath := some (streamUrl vid res)
      completedAt := some now }) hj
  have h1 : ∀ X : List (String × TranscodingJob),
      ({ st with transcodingJobs := X } : MemStorage).videos.lookup vid =
        some v := fun _ => hv
  simp only [simCompleteHandler, h2, h1, allCompletedCheck]
  rw [updateVideo_eq _ vid v _ (h1 _)]

theorem mem_allResolutions (r : Resolution) : r ∈ allResolutions := by
  cases r <;> simp [allResolutions]

theorem rat_le99_ne100 {p : Rat} (hp : p ≤ 99) : p ≠ 100 := by
  intro h
  rw [h] at hp
  norm_num at hp

theorem simInv_step (ctx : SimCtx) (o : Resolution → Bool)
    (hinj : Function.Injective ctx.jobId) {c c' : SimConfig}
    (hstep : SimStep ctx o c c') (hinv : SimInv ctx o c) :
    SimInv ctx o c' := by
  obtain ⟨v, hv, hjobs, hhls, hprog, hcomp, hfail⟩ := hinv
  cases hstep with
  | start r now hph =>
    obtain ⟨jr, hjr, hjrs⟩ := hjobs r
    rw [simStartHandler_eq c.st ctx.videoId (ctx.jobId r) now v jr hv hjr]
    refine ⟨{ v with status := .transcoding },
      lookup_mapSet_self _ _ _, ?_, ?_, ?_, ?_, ?_⟩
    · intro r'
      by_cases hr : r' = r
      · subst hr
        refine ⟨{ jr with status := .processing, startedAt := some now },
          lookup_mapSet_self _ _ _, ?_⟩
        simp only [Function.update_same, phaseJobStatus]
      · obtain ⟨j', hj', hjs'⟩ := hjobs r'
        refine ⟨j', ?_, ?_⟩
        · rw [lookup_mapSet_ne _ _ _ _ (fun hc => hr (hinj hc))]
          exact hj'
        · simp only [Function.update_noteq hr]
          exact hjs'
    · intro r'
      have hsame : hlsOf { v with status := VideoStatus.transcoding } r' =
          hlsOf v r' := rfl
      rw [hsame]
      by_cases hr : r' = r
      · subst hr
        simp only [Function.update_same, phaseJobStatus]
        constructor
        · intro hs
          have h1 := ((hhls r').mp hs).1
          rw [hph] at h1
          exact absurd h1 (by simp)
        · rintro ⟨h1, _⟩
          exact absurd h1 (by simp)
      · simp only [Function.update_noteq hr]
        exact hhls r'
    · intro r'
      have hsame : progressOf { v with status := VideoStatus.transcoding } r' =
          progressOf v r' := rfl
      rw [hsame]
      by_cases hr : r' = r
      · subst hr
        simp only [Function.update_same, phaseJobStatus]
        constructor
        · intro hs
          have h1 := ((hprog r').mp hs).2
          rw [hph] at h1
          rcases h1 with h1 | h1 <;> exact absurd h1 (by simp)
        · rintro ⟨_, h1 | h1⟩ <;> exact absurd h1 (by simp)
      · simp only [Function.update_noteq hr]
        exact hprog r'
    · intro hst
      exact absurd hst (by simp)
    · intro hst
      exact absurd hst (by simp)
  | progress r p hph hp =>
    obtain ⟨jr, hjr, hjrs⟩ := hjobs r
    rw [simProgressHandler_eq c.st ctx.videoId (ctx.jobId r) r p v jr hv hjr]
    refine ⟨{ v with transcodingProgress := some ((v.transcodingProgress.getD ResMap.empty).set r p) },
      lookup_mapSet_self _ _ _, ?_, ?_, ?_, ?_, ?_⟩
    · intro r'
      by_cases hr : r' = r
      · subst hr
        exact ⟨{ jr with progress := p }, lookup_mapSet_self _ _ _, hjrs⟩
      · obtain ⟨j', hj', hjs'⟩ := hjobs r'
        refine ⟨j', ?_, hjs'⟩
        rw [lookup_mapSet_ne _ _ _ _ (fun hc => hr (hinj hc))]
        exact hj'
    · intro r'
      exact hhls r'
    · intro r'
      have hpg : progressOf { v with transcodingProgress := some ((v.transcodingProgress.getD ResMap.empty).set r p) } r' =
          ((v.transcodingProgress.getD ResMap.empty).set r p).get r' := rfl
      rw [hpg]
      by_cases hr : r' = r
      · subst hr
        rw [ResMap.get_set_self]
        constructor
        · intro hs
          have : p = 100 := by injection hs
          exact absurd this (rat_le99_ne100 hp)
        · rintro ⟨_, h1 | h1⟩ <;> (rw [hph] at h1; exact absurd h1 (by simp))
      · rw [ResMap.get_set_ne _ _ _ _ hr]
        exact hprog r'
    · intro hst
      intro r'
      exact absurd ((hcomp hst r).2.resolve_left
        (fun h1 => by rw [hph] at h1; exact absurd h1 (by simp)))
        (fun h1 => by rw [hph] at h1; exact absurd h1 (by simp))
    · intro hst
      exact hfail hst
  | progress100 r ho hph =>
    obtain ⟨jr, hjr, hjrs⟩ := hjobs r
    rw [simProgressHandler_eq c.st ctx.videoId (ctx.jobId r) r 100 v jr hv hjr]
    refine ⟨{ v with transcodingProgress := some ((v.transcodingProgress.getD ResMap.empty).set r 100) },
      lookup_mapSet_self _ _ _, ?_, ?_, ?_, ?_, ?_⟩
    · intro r'
      by_cases hr : r' = r
      · subst hr
        refine ⟨{ jr with progress := 100 }, lookup_mapSet_self _ _ _, ?_⟩
        simp only [Function.update_same, phaseJobStatus]
        rw [hjrs, hph]
        rfl
      · obtain ⟨j', hj', hjs'⟩ := hjobs r'
        refine ⟨j', ?_, ?_⟩
        · rw [lookup_mapSet_ne _ _ _ _ (fun hc => hr (hinj hc))]
          exact hj'
        · simp only [Function.update_noteq hr]
          exact hjs'
    · intro r'
      have hsame : hlsOf { v with transcodingProgress := some ((v.transcodingProgress.getD ResMap.empty).set r 100) } r' =
          hlsOf v r' := rfl
      rw [hsame]
      by_cases hr : r' = r
      · subst hr
        simp only [Function.update_same, phaseJobStatus]
        constructor
        · intro hs
          have h1 := ((hhls r').mp hs).1
          rw [hph] at h1
          exact absurd h1 (by simp)
        · rintro ⟨h1, _⟩
          exact absurd h1 (by simp)
      · simp only [Function.update_noteq hr]
        exact hhls r'
    · intro r'
      have hpg : progressOf { v with transcodingProgress := some ((v.transcodingProgress.getD ResMap.empty).set r 100) } r' =
          ((v.transcodingProgress.getD ResMap.empty).set r 100).get r' := rfl
      rw [hpg]
      by_cases hr : r' = r
      · subst hr
        simp only [ResMap.get_set_self, Function.update_same]
        simp [ho]
      · rw [ResMap.get_set_ne _ _ _ _ hr]
        simp only [Function.update_noteq hr]
        exact hprog r'
    · intro hst r'
      by_cases hr : r' = r
      · subst hr
        simp only [Function.update_same, phaseJobStatus]
        exact ⟨ho, Or.inl trivial⟩
      · simp only [Function.update_noteq hr]
        exact hcomp hst r'
    · intro hst
      obtain ⟨r0, ho0, hph0⟩ := hfail hst
      have hr0 : r0 ≠ r := by
        intro hc
        rw [hc, hph] at hph0
        exact absurd hph0 (by simp)
      refine ⟨r0, ho0, ?_⟩
      simp only [Function.update_noteq hr0]
      exact hph0
  | complete r now ho hph =>
    obtain ⟨jr, hjr, hjrs⟩ := hjobs r
    rw [simCompleteHandler_eq c.st ctx.videoId (ctx.jobId r) r now v jr hv hjr]
    refine ⟨_, lookup_mapSet_self _ _ _, ?_, ?_, ?_, ?_, ?_⟩
    · intro r'
      by_cases hr : r' = r
      · subst hr
        refine ⟨_, lookup_mapSet_self _ _ _, ?_⟩
        simp only [Function.update_same, phaseJobStatus]
        show JobStatus.completed = phaseJobStatus .finished (o r')
        rw [phaseJobStatus, if_pos ho]
      · obtain ⟨j', hj', hjs'⟩ := hjobs r'
        refine ⟨j', ?_, ?_⟩
        · rw [lookup_mapSet_ne _ _ _ _ (fun hc => hr (hinj hc))]
          exact hj'
        · simp only [Function.update_noteq hr]
          exact hjs'
    · intro r'
      have hsame : hlsOf { v with
          hlsUrls := some ((v.hlsUrls.getD ResMap.empty).set r (streamUrl ctx.videoId r))
          transcodingProgress := some ((v.transcodingProgress.getD ResMap.empty).set r 100)
          status := if allCompletedCheck v r then VideoStatus.completed else VideoStatus.transcoding
          completedAt := if allCompletedCheck v r then some now else none } r' =
          ((v.hlsUrls.getD ResMap.empty).set r (streamUrl ctx.videoId r)).get r' := rfl
      rw [hsame]
      by_cases hr : r' = r
      · subst hr
        simp only [ResMap.get_set_self, Function.update_same]
        simp [ho]
      · rw [ResMap.get_set_ne _ _ _ _ hr]
        simp only [Function.update_noteq hr]
        exact hhls r'
    · intro r'
      have hpg : progressOf { v with
          hlsUrls := some ((v.hlsUrls.getD ResMap.empty).set r (streamUrl ctx.videoId r))
          transcodingProgress := some ((v.transcodingProgress.getD ResMap.empty).set r 100)
          status := if allCompletedCheck v r then VideoStatus.completed else VideoStatus.transcoding
          completedAt := if allCompletedCheck v r then some now else none } r' =
          ((v.transcodingProgress.getD ResMap.empty).set r 100).get r' := rfl
      rw [hpg]
      by_cases hr : r' = r
      · subst hr
        simp only [ResMap.get_set_self, Function.update_same]
        simp [ho]
      · rw [ResMap.get_set_ne _ _ _ _ hr]
        simp only [Function.update_noteq hr]
        exact hprog r'
    · intro hst r'
      by_cases hall : allCompletedCheck v r
      · by_cases hr : r' = r
        · subst hr
          simp only [Function.update_same, phaseJobStatus]
          exact ⟨ho, Or.inr trivial⟩
        · have h100 : ((v.transcodingProgress.getD ResMap.empty).set r 100).get r' = some 100 := by
            have := (List.all_eq_true.mp hall) r' (mem_allResolutions r')
            exact beq_iff_eq.mp this
          rw [ResMap.get_set_ne _ _ _ _ hr] at h100
          have := (hprog r').mp h100
          simp only [Function.update_noteq hr]
          exact this
      · exfalso
        have : VideoStatus.transcoding = VideoStatus.completed := by
          have hs : ({ v with
            hlsUrls := some ((v.hlsUrls.getD ResMap.empty).set r (streamUrl ctx.videoId r))
            transcodingProgress := some ((v.transcodingProgress.getD ResMap.empty).set r 100)
            status := if allCompletedCheck v r then VideoStatus.completed else VideoStatus.transcoding
            completedAt := if allCompletedCheck v r then some now else none } : Video).status =
              VideoStatus.completed := hst
          rw [show ({ v with
            hlsUrls := some ((v.hlsUrls.getD ResMap.empty).set r (streamUrl ctx.videoId r))
            transcodingProgress := some ((v.transcodingProgress.getD ResMap.empty).set r 100)
            status := if allCompletedCheck v r then VideoStatus.completed else VideoStatus.transcoding
            completedAt := if allCompletedCheck v r then some now else none } : Video).status =
              (if allCompletedCheck v r then VideoStatus.completed else VideoStatus.transcoding) from rfl,
            if_neg hall] at hs
          exact hs
        exact absurd this (by simp)
    · intro hst
      exfalso
      by_cases hall : allCompletedCheck v r <;>
      · have hs : (if allCompletedCheck v r then VideoStatus.completed else VideoStatus.transcoding) =
            VideoStatus.failed := hst
        simp [hall] at hs
  | fail r msg now ho hph =>
    obtain ⟨jr, hjr, hjrs⟩ := hjobs r
    rw [simFailHandler_eq c.st ctx.videoId (ctx.jobId r) msg now v jr hv hjr]
    refine ⟨{ v with status := .failed, errorMessage := some msg },
      lookup_mapSet_self _ _ _, ?_, ?_, ?_, ?_, ?_⟩
    · intro r'
      by_cases hr : r' = r
      · subst hr
        refine ⟨{ jr with status := .failed, completedAt := some now },
          lookup_mapSet_self _ _ _, ?_⟩
        simp only [Function.update_same, phaseJobStatus]
        show JobStatus.failed = phaseJobStatus .finished (o r')
        rw [phaseJobStatus, if_neg (by rw [ho]; exact Bool.false_ne_true)]
      · obtain ⟨j', hj', hjs'⟩ := hjobs r'
        refine ⟨j', ?_, ?_⟩
        · rw [lookup_mapSet_ne _ _ _ _ (fun hc => hr (hinj hc))]
          exact hj'
        · simp only [Function.update_noteq hr]
          exact hjs'
    · intro r'
      have hsame : hlsOf { v with status := VideoStatus.failed, errorMessage := some msg } r' =
          hlsOf v r' := rfl
      rw [hsame]
      by_cases hr : r' = r
      · subst hr
        simp only [Function.update_same, phaseJobStatus]
        constructor
        · intro hs
          have h1 := ((hhls r').mp hs).1
          rw [hph] at h1
          exact absurd h1 (by simp)
        · rintro ⟨_, h2⟩
          rw [ho] at h2
          exact absurd h2 Bool.false_ne_true
      · simp only [Function.update_noteq hr]
        exact hhls r'
    · intro r'
      have hsame : progressOf { v with status := VideoStatus.failed, errorMessage := some msg } r' =
          progressOf v r' := rfl
      rw [hsame]
      by_cases hr : r' = r
      · subst hr
        simp only [Function.update_same, phaseJobStatus]
        constructor
        · intro hs
          have h1 := ((hprog r').mp hs).1
          rw [ho] at h1
          exact absurd h1 Bool.false_ne_true
        · rintro ⟨h1, _⟩
          rw [ho] at h1
          exact absurd h1 Bool.false_ne_true
      · simp only [Function.update_noteq hr]
        exact hprog r'
    · intro hst
      exact absurd hst (by simp)
    · intro _
      refine ⟨r, ho, ?_⟩
      simp only [Function.update_same, phaseJobStatus]

theorem simInit_simInv (ctx : SimCtx) (o : Resolution → Bool)
    (c : SimConfig) (h : SimInit ctx c) : SimInv ctx o c := by
  obtain ⟨hph, ⟨v, hv, hst, htp, hhl⟩, hjobs⟩ := h
  refine ⟨v, hv, ?_, ?_, ?_, ?_, ?_⟩
  · intro r
    obtain ⟨j, hj, hjs⟩ := hjobs r
    refine ⟨j, hj, ?_⟩
    rw [hjs, hph r]
    rfl
  · intro r
    rw [hph r]
    constructor
    · intro hs
      simp only [hlsOf, hhl, Option.getD_none] at hs
      cases r <;> simp [ResMap.empty, ResMap.get] at hs
    · rintro ⟨h1, _⟩
      exact absurd h1 (by simp)
  · intro r
    rw [hph r]
    constructor
    · intro hs
      simp only [progressOf, htp, Option.getD_some] at hs
      cases r <;>
      · simp only [ResMap.get] at hs
        exact absurd (Option.some.inj hs) (by norm_num)
    · rintro ⟨_, h1 | h1⟩ <;> exact absurd h1 (by simp)
  · intro h1
    rw [hst] at h1
    exact absurd h1 (by simp)
  · intro h1
    rw [hst] at h1
    exact absurd h1 (by simp)

theorem simInv_run (ctx : SimCtx) (o : Resolution → Bool)
    (hinj : Function.Injective ctx.jobId) {c0 c : SimConfig}
    (hrun : Relation.ReflTransGen (SimStep ctx o) c0 c)
    (h0 : SimInv ctx o c0) : SimInv ctx o c := by
  induction hrun with
  | refl => exact h0
  | tail _ hstep ih => exact simInv_step ctx o hinj hstep ih

theorem simInv_last_completed (ctx : SimCtx) (o : Resolution → Bool)
    {c c' : SimConfig}
    (hinv : SimInv ctx o c) (hstep : SimStep ctx o c c')
    (hdone : ∀ r, c'.ph r = .finished) (hall : ∀ r, o r = true) :
    ∃ v', c'.st.videos.lookup ctx.videoId = some v' ∧
      v'.status = .completed := by
  obtain ⟨v, hv, hjobs, hhls, hprog, hcomp, hfail⟩ := hinv
  cases hstep with
  | start r now hph =>
    exfalso
    have hthis : Function.update c.ph r SimPhase.running r = .finished :=
      hdone r
    rw [Function.update_same] at hthis
    exact absurd hthis (by simp)
  | progress r p hph hp =>
    exfalso
    have hthis : c.ph r = SimPhase.finished := hdone r
    rw [hph] at hthis
    exact absurd hthis (by simp)
  | progress100 r ho hph =>
    exfalso
    have hthis : Function.update c.ph r SimPhase.got100 r = .finished :=
      hdone r
    rw [Function.update_same] at hthis
    exact absurd hthis (by simp)
  | fail r msg now ho hph =>
    exfalso
    have := hall r
    rw [ho] at this
    exact Bool.false_ne_true this
  | complete r now ho hph =>
    obtain ⟨jr, hjr, _⟩ := hjobs r
    rw [simCompleteHandler_eq c.st ctx.videoId (ctx.jobId r) r now v jr hv hjr]
    have hall100 : allCompletedCheck v r = true := by
      rw [allCompletedCheck, List.all_eq_true]
      intro r' _
      rw [beq_iff_eq]
      by_cases hr : r' = r
      · subst hr
        exact ResMap.get_set_self _ _ _
      · rw [ResMap.get_set_ne _ _ _ _ hr]
        have hf : c.ph r' = SimPhase.finished := by
          have h2 : Function.update c.ph r SimPhase.finished r' = .finished :=
            hdone r'
          rw [Function.update_noteq hr] at h2
          exact h2
        exact (hprog r').mpr ⟨hall r', Or.inr hf⟩
    refine ⟨_, lookup_mapSet_self _ _ _, ?_⟩
    simp [hall100]

/-- **C2.** For a video with its three transcoding jobs, after any
interleaved execution of the three `simulateTranscoding` invocations in
which every invocation has run its completion/failure section: the
video status is `completed` iff all three jobs are `completed`; a
`failed` video status implies some job is `failed`; and `hlsUrls[r]` is
present iff the job for resolution `r` is `completed`. -/
theorem video_status_job_consistency (ctx : SimCtx)
    (o : Resolution → Bool) (c0 c : SimConfig)
    (hinj : Function.Injective ctx.jobId)
    (hinit : SimInit ctx c0)
    (hrun : Relation.ReflTransGen (SimStep ctx o) c0 c)
    (hdone : ∀ r, c.ph r = .finished) :
    ∃ (v : Video) (j : Resolution → TranscodingJob),
      c.st.videos.lookup ctx.videoId = some v ∧
      (∀ r, c.st.transcodingJobs.lookup (ctx.jobId r) = some (j r)) ∧
      (v.status = .completed ↔ ∀ r, (j r).status = .completed) ∧
      (v.status = .failed → ∃ r, (j r).status = .failed) ∧
      (∀ r, (hlsOf v r).isSome ↔ (j r).status = .completed) := by
  have hinv := simInv_run ctx o hinj hrun (simInit_simInv ctx o c0 hinit)
  obtain ⟨v, hv, hjobs, hhls, hprog, hcomp, hfail⟩ := hinv
  choose j hj hjs using hjobs
  refine ⟨v, j, hv, hj, ⟨?_, ?_⟩, ?_, ?_⟩
  · intro hst r
    have ho := (hcomp hst r).1
    rw [hjs r, hdone r]
    simp [phaseJobStatus, ho]
  · intro hallj
    have hall : ∀ r, o r = true := by
      intro r
      have hc := hallj r
      rw [hjs r, hdone r] at hc
      by_cases hb : o r = true
      · exact hb
      · rw [Bool.not_eq_true] at hb
        rw [hb] at hc
        simp [phaseJobStatus] at hc
    rcases Relation.ReflTransGen.cases_tail hrun with heq | ⟨c1, hrun1, hstep⟩
    · exfalso
      obtain ⟨hph0, _, _⟩ := hinit
      have hd := hdone Resolution.r360p
      rw [heq] at hd
      rw [hph0 Resolution.r360p] at hd
      exact absurd hd (by simp)
    · have hinv1 := simInv_run ctx o hinj hrun1 (simInit_simInv ctx o c0 hinit)
      obtain ⟨v', hv', hst'⟩ :=
        simInv_last_completed ctx o hinv1 hstep hdone hall
      rw [hv] at hv'
      obtain rfl : v' = v := (Option.some.inj hv').symm
      exact hst'
  · intro hst
    obtain ⟨r, ho, _⟩ := hfail hst
    refine ⟨r, ?_⟩
    rw [hjs r, hdone r]
    simp [phaseJobStatus, ho]
  · intro r
    rw [hjs r, hdone r]
    constructor
    · intro hs
      have ho := ((hhls r).mp hs).2
      simp [phaseJobStatus, ho]
    · intro hc
      refine (hhls r).mpr ⟨hdone r, ?_⟩
      by_cases hb : o r = true
      · exact hb
      · rw [Bool.not_eq_true] at hb
        rw [hb] at hc
        simp [phaseJobStatus] at hc

/-- Witness for C2: a concrete all-success interleaving (each
resolution starts, reports 100 and completes) from the initial
configuration; the final state satisfies the consistency properties. -/
theorem video_status_job_consistency_witness :
    ∃ c : SimConfig,
      Relation.ReflTransGen (SimStep simCtx0 (fun _ => true)) simConfig0 c ∧
      (∀ r, c.ph r = .finished) ∧
      ∃ (v : Video) (j : Resolution → TranscodingJob),
        c.st.videos.lookup simCtx0.videoId = some v ∧
        (∀ r, c.st.transcodingJobs.lookup (simCtx0.jobId r) = some (j r)) ∧
        (v.status = .completed ↔ ∀ r, (j r).status = .completed) ∧
        (v.status = .failed → ∃ r, (j r).status = .failed) ∧
        (∀ r, (hlsOf v r).isSome ↔ (j r).status = .completed) := by
  have hinj : Function.Injective simCtx0.jobId := by
    intro a b h
    cases a <;> cases b <;> first | rfl | exact absurd h (by decide)
  have hinit : SimInit simCtx0 simConfig0 := by
    refine ⟨fun r => rfl, ⟨simVideo0, rfl, rfl, rfl, rfl⟩, ?_⟩
    intro r
    cases r with
    | r360p => exact ⟨simJob0 "j360" .r360p, by rfl, rfl⟩
    | r720p => exact ⟨simJob0 "j720" .r720p, by rfl, rfl⟩
    | r1080p => exact ⟨simJob0 "j1080" .r1080p, by rfl, rfl⟩
  have hex : ∃ c : SimConfig,
      Relation.ReflTransGen (SimStep simCtx0 (fun _ => true)) simConfig0 c ∧
      (∀ r, c.ph r = .finished) := by
    have t0 : Relation.ReflTransGen (SimStep simCtx0 (fun _ => true))
        simConfig0 simConfig0 := Relation.ReflTransGen.refl
    have t1 := t0.tail (SimStep.start simConfig0 .r360p 1 (by decide))
    have t2 := t1.tail (SimStep.progress100 _ .r360p (by decide) (by decide))
    have t3 := t2.tail (SimStep.complete _ .r360p 2 (by decide) (by decide))
    have t4 := t3.tail (SimStep.start _ .r720p 3 (by decide))
    have t5 := t4.tail (SimStep.progress100 _ .r720p (by decide) (by decide))
    have t6 := t5.tail (SimStep.complete _ .r720p 4 (by decide) (by decide))
    have t7 := t6.tail (SimStep.start _ .r1080p 5 (by decide))
    have t8 := t7.tail (SimStep.progress100 _ .r1080p (by decide) (by decide))
    have t9 := t8.tail (SimStep.complete _ .r1080p 6 (by decide) (by decide))
    refine ⟨_, t9, ?_⟩
    intro r
    cases r <;> decide
  obtain ⟨c, hrun, hdone⟩ := hex
  exact ⟨c, hrun, hdone,
    video_status_job_consistency simCtx0 (fun _ => true) simConfig0 c hinj
      hinit hrun hdone⟩
